import Mathlib

/-!
# FactomCode: entry blocks, entry-credit blocks and their codecs

A shallow embedding of `common/entryBlock.go` (entry chains, entry blocks, their
binary codecs), of the entry-credit block exercised by `common/ecblock_test.go`, of
the entry store keys of `database/ldb/entry.go` and of the block timer of
`restapi/timer.go`, and theorems about them.

Conventions of the embedding

* A Go `[]byte` is a `List Nat` whose elements are bytes (`< 256`); a slice is
  modelled with capacity equal to its length, so `data[a:b]` is in range exactly
  when `a ≤ b ≤ len(data)`.
* A Go `*Hash` is an `Option Hash`; `none` is the nil pointer.
* A Go function returning `(value, err)` is modelled with `Outcome`: `ok` for
  `err == nil`, `error` for `err != nil`, and `panic` for a run-time panic
  (slice bounds out of range, index out of range, nil pointer dereference, `make`
  with a size out of range).
* State reached through pointers (`*EChain`, `*EBlock`) is passed explicitly: a
  function returns the state of the objects it was given next to its result.
* Functions, constants and types that the source files call but do not define are
  gathered in `Env` (for `entryBlock.go`) and `LdbEnv` (for `entry.go`) and stay
  parameters.
* Time is passed explicitly: the readings of `time.Now()` are inputs, and sleeping
  and sending on a channel are recorded as events in the order they happen.
-/

namespace FactomCode

/-! ## Bytes and hashes -/

/-- Length in bytes of a hash (`HASH_LENGTH`). -/
def HASH_LENGTH : Nat := 32

/-- Hash value: the `Bytes` field of the Go struct `Hash`. -/
abbrev Hash := List Nat

/-- Pointer to a hash (`*Hash`); `none` is nil. -/
abbrev HashPtr := Option Hash

/-- Result of a Go call that may return an error or panic. -/
inductive Outcome (α : Type) where
  | ok (val : α)
  | error (msg : String)
  | panic
  deriving Repr, DecidableEq

/-- Big-endian encoding of `n` on `w` bytes (the value is reduced modulo `256 ^ w`),
as `binary.Write(&buf, binary.BigEndian, n)` emits it for a `w`-byte unsigned integer. -/
def beBytes : Nat → Nat → List Nat
  | 0, _ => []
  | w + 1, n => beBytes w (n / 256) ++ [n % 256]

/-- Big-endian value of a byte string (`binary.BigEndian.Uint32`, `Uint64`). -/
def beValue (bs : List Nat) : Nat :=
  bs.foldl (fun acc b => acc * 256 + b) 0

/-- Modelled from the spec: `NewHash` is defined outside the source files; per §3 the
null hash is the distinguished all-zero value of exactly 32 bytes. -/
def NewHash : HashPtr := some (List.replicate HASH_LENGTH 0)

/-- Modelled from the spec: `NewShaHash` is defined outside the source files; per §4.1
(`fromBytes`) it yields the hash holding the given bytes when there are exactly 32 of
them and fails otherwise. -/
def NewShaHash (newHash : List Nat) : HashPtr × Option String :=
  if newHash.length = HASH_LENGTH then (some newHash, none)
  else (none, some "invalid hash length")

/-! ## Data model -/

/-- Modelled from the spec: the `Entry` type is declared outside the source files; an
entry is an application-level record, represented here by its byte content. -/
abbrev Entry := List Nat

/-- Modelled from the spec: the `EBEntry` type is declared outside the source files;
an entry reference is a hash standing for an entry or an end-of-minute sentinel, read
as `entry.EntryHash` by `BuildMerkleRoot`. -/
structure EBEntry where
  EntryHash : HashPtr
  deriving Repr, DecidableEq

/-- Modelled from the spec: `NewEBEntry` is defined outside the source files; it wraps
a hash into an entry reference. -/
def NewEBEntry (h : HashPtr) : EBEntry := { EntryHash := h }

/-- Modelled from the spec: the `EChain` type is declared outside the source files;
§3 gives its fields (`NextBlockHeight` is a `uint32`). -/
structure EChain where
  ChainID : HashPtr
  NextBlockHeight : Nat
  FirstEntry : Option Entry
  deriving Repr, DecidableEq

/-- Modelled from the spec: the `EBlockHeader` type is declared outside the source
files; these are the fields `CreateBlock` and `BuildMerkleRoot` read and write. -/
structure EBlockHeader where
  Version : Nat
  ChainID : HashPtr
  BodyMR : HashPtr
  PrevKeyMR : HashPtr
  PrevHash : HashPtr
  EBHeight : Nat
  deriving Repr, DecidableEq

/-- Zero value `new(EBlockHeader)`. -/
def EBlockHeader.new : EBlockHeader :=
  { Version := 0, ChainID := none, BodyMR := none, PrevKeyMR := none, PrevHash := none,
    EBHeight := 0 }

/-- Entry block. The first eight fields are the ones the struct declares (lines
28-42); `PrevHash`, `EBHeight` and `StartTime` are read by the `MarshalBinary` of lines
74-92; `Header`, `Chain`, `IsSealed`, `EBHash` and `MerkleRoot` are used by
`CreateBlock` and the methods after it. `StartTime` holds the bytes `binary.Write`
emits for that field, whose type the source does not declare. `Header` is a
`*EBlockHeader`: `none` is the nil pointer. -/
structure EBlock where
  ChainID : HashPtr
  BodyMR : HashPtr
  PrevKeyMR : HashPtr
  PrevHash3 : HashPtr
  EBSequence : Nat
  DBHeight : Nat
  EntryCount : Nat
  EBEntries : List EBEntry
  PrevHash : HashPtr
  EBHeight : Nat
  StartTime : List Nat
  Header : Option EBlockHeader
  Chain : Option EChain
  IsSealed : Bool
  EBHash : HashPtr
  MerkleRoot : HashPtr
  deriving Repr, DecidableEq

/-- Zero value `new(EBlock)`. -/
def EBlock.new : EBlock :=
  { ChainID := none, BodyMR := none, PrevKeyMR := none, PrevHash3 := none,
    EBSequence := 0, DBHeight := 0, EntryCount := 0, EBEntries := [],
    PrevHash := none, EBHeight := 0, StartTime := [],
    Header := none, Chain := none, IsSealed := false,
    EBHash := none, MerkleRoot := none }

/-- Functions and constants of the repository that `entryBlock.go` calls but that are
defined outside the source files. Each is a total function of its Go signature; a
returned `Option String` is the Go `error` (`none` is nil). -/
structure Env where
  /-- Constant `VERSION_0`. -/
  VERSION_0 : Nat
  /-- Function `Sha(data) *Hash`. -/
  Sha : List Nat → Hash
  /-- Function `BuildMerkleTreeStore(hashes) []*Hash`. -/
  BuildMerkleTreeStore : List HashPtr → List HashPtr
  /-- Method `(*EBlockHeader).MarshalBinary() ([]byte, error)`, called through the
  pointer. -/
  HeaderMarshalBinary : Option EBlockHeader → List Nat × Option String
  /-- Method `(*EBlockHeader).MarshalledSize() uint64`. -/
  HeaderMarshalledSize : EBlockHeader → Nat
  /-- Method `(*EBEntry).MarshalBinary() ([]byte, error)`. -/
  EBEntryMarshalBinary : EBEntry → List Nat × Option String
  /-- Method `(*EBEntry).UnmarshalBinary(data) error`, applied to `new(EBEntry)`: the
  entry as the call leaves it, and the error. -/
  EBEntryUnmarshalBinary : List Nat → EBEntry × Option String
  /-- Method `(*EBEntry).MarshalledSize() uint64`. -/
  EBEntryMarshalledSize : EBEntry → Nat
  /-- Function `UnmarshalHash(data) (*Hash, []byte, error)`. -/
  UnmarshalHash : List Nat → HashPtr × List Nat × Option String
  /-- Function `CreateHash(entry) (*Hash, error)`. -/
  CreateHash : Entry → HashPtr × Option String
  /-- Method `(*Hash).MarshalBinary() ([]byte, error)`, called through the pointer. -/
  HashMarshalBinary : HashPtr → List Nat × Option String
  /-- Method `(*Hash).UnmarshalBinary(data) error`, applied to `new(Hash)`: the hash
  as the call leaves it, and the error. -/
  HashUnmarshalBinary : List Nat → Hash × Option String
  /-- Method `(*Entry).MarshalBinary() ([]byte, error)`. -/
  EntryMarshalBinary : Entry → List Nat × Option String
  /-- Method `(*Entry).UnmarshalBinary(data) error`, applied to `new(Entry)`: the
  entry as the call leaves it, and the error. -/
  EntryUnmarshalBinary : List Nat → Entry × Option String

/-! ## Entry blocks: creation and Merkle roots -/

/-- Largest length or capacity for which `make` returns a slice of pointers: the run
time panics when the size in bytes, 8 per pointer, exceeds its allocation limit of
`2 ^ 48` bytes (64-bit platforms, on which `uint` and `int` are 64 bits wide). -/
def maxPointerSliceCap : Nat := 2 ^ 45

/-- Built-in `make([]*T, len, cap)`: a panic when the length exceeds the capacity or
the capacity is out of range. Within the range the allocation is taken to succeed;
running out of memory is not modelled. -/
def makeSlice (len cap : Nat) : Outcome Unit :=
  if len ≤ cap ∧ cap ≤ maxPointerSliceCap then Outcome.ok () else Outcome.panic

/-- Method `(*EBlock).BuildMerkleRoot` (lines 160-177). The tree over the body is
built and then overwritten; the key Merkle root is the last element of the tree over
the header hash and `Header.BodyMR`. Reading `Header.BodyMR` through a nil `Header`
panics, and so does indexing an empty tree at `len(merkle)-1`. The returned block is
the receiver after the call. -/
def EBlock.BuildMerkleRoot (env : Env) (block : EBlock) : Outcome EBlock :=
  let hashes : List HashPtr := block.EBEntries.map (fun entry => entry.EntryHash)
  let _merkle := env.BuildMerkleTreeStore hashes
  let binaryEBHeader := (env.HeaderMarshalBinary block.Header).1
  match block.Header with
  | none => Outcome.panic
  | some header =>
    let hashes : List HashPtr := [some (env.Sha binaryEBHeader), header.BodyMR]
    let merkle := env.BuildMerkleTreeStore hashes
    match merkle.getLast? with
    | none => Outcome.panic
    | some root => Outcome.ok { block with MerkleRoot := root }

/-- What a call of `CreateBlock` leaves behind: the chain and the previous block as
they are after the call, and the returned `(b, err)`. -/
structure CreateBlockResult where
  chain : EChain
  prev : Option EBlock
  ret : Outcome EBlock
  deriving Repr, DecidableEq

/-- Function `CreateBlock(chain, prev, capacity)` (lines 101-132). The error that
`prev.BuildMerkleRoot()` returns is not tested (line 120); `make([]*EBEntry, 0,
capacity)` at line 127 panics for a capacity out of range, after `prev` has been
given its Merkle root. -/
def CreateBlock (env : Env) (chain : EChain) (prev : Option EBlock) (capacity : Nat) :
    CreateBlockResult :=
  match prev with
  | none =>
    if chain.NextBlockHeight ≠ 0 then
      { chain := chain, prev := none, ret := Outcome.error "Previous block cannot be nil" }
    else
      let b := EBlock.new
      let hdr : EBlockHeader :=
        { EBlockHeader.new with
          Version := env.VERSION_0, ChainID := chain.ChainID,
          EBHeight := chain.NextBlockHeight, PrevHash := NewHash, PrevKeyMR := NewHash }
      match makeSlice 0 capacity with
      | Outcome.ok _ =>
        { chain := chain, prev := none,
          ret := Outcome.ok { b with Header := some hdr, Chain := some chain, EBEntries := [],
                                     IsSealed := false } }
      | _ => { chain := chain, prev := none, ret := Outcome.panic }
  | some p =>
    if chain.NextBlockHeight = 0 then
      { chain := chain, prev := some p,
        ret := Outcome.error "Origin block cannot have a parent block" }
    else
      let b := EBlock.new
      let hdr : EBlockHeader :=
        { EBlockHeader.new with
          Version := env.VERSION_0, ChainID := chain.ChainID,
          EBHeight := chain.NextBlockHeight, PrevHash := p.EBHash }
      let built : Outcome EBlock :=
        if p.MerkleRoot = none then p.BuildMerkleRoot env else Outcome.ok p
      match built with
      | Outcome.panic => { chain := chain, prev := some p, ret := Outcome.panic }
      | Outcome.ok q =>
        match makeSlice 0 capacity with
        | Outcome.ok _ =>
          { chain := chain, prev := some q,
            ret := Outcome.ok { b with Header := some { hdr with PrevKeyMR := q.MerkleRoot },
                                       Chain := some chain, EBEntries := [],
                                       IsSealed := false } }
        | _ => { chain := chain, prev := some q, ret := Outcome.panic }
      | Outcome.error _ =>
        match makeSlice 0 capacity with
        | Outcome.ok _ =>
          { chain := chain, prev := some p,
            ret := Outcome.ok { b with Header := some { hdr with PrevKeyMR := p.MerkleRoot },
                                       Chain := some chain, EBEntries := [],
                                       IsSealed := false } }
        | _ => { chain := chain, prev := some p, ret := Outcome.panic }

/-- Method `(*EBlock).AddEndOfMinuteMarker(eomType byte)` (lines 147-158): the receiver
after the call and the returned error. The error of `NewShaHash` is dropped, as in the
source. -/
def EBlock.AddEndOfMinuteMarker (b : EBlock) (eomType : Nat) : EBlock × Option String :=
  let bytes := (List.replicate 32 0).set 31 (eomType % 256)
  let h := (NewShaHash bytes).1
  let ebEntry := NewEBEntry h
  ({ b with EBEntries := b.EBEntries ++ [ebEntry] }, none)

/-- Method `(*EBlock).AddEBEntry(e)` (lines 134-145): the receiver after the call and
the returned error. -/
def EBlock.AddEBEntry (env : Env) (b : EBlock) (e : Entry) : EBlock × Option String :=
  match env.CreateHash e with
  | (_, some err) => (b, some err)
  | (h, none) =>
    let ebEntry := NewEBEntry h
    ({ b with EBEntries := b.EBEntries ++ [ebEntry] }, none)

/-! ## Entry blocks: binary codecs -/

/-- Sequencing of calls: the first error or panic ends the computation. -/
def Outcome.bind {α β : Type} : Outcome α → (α → Outcome β) → Outcome β
  | Outcome.ok val, f => f val
  | Outcome.error msg, _ => Outcome.error msg
  | Outcome.panic, _ => Outcome.panic

instance : Monad Outcome where
  pure := Outcome.ok
  bind := Outcome.bind

/-- Field access `h.Bytes` through a `*Hash`: a nil pointer dereference panics. -/
def derefHash : HashPtr → Outcome (List Nat)
  | some bytes => Outcome.ok bytes
  | none => Outcome.panic

/-- The header size is fixed (lines 45-47). -/
def EBlock.headersize (_e : EBlock) : Nat := 140

/-- The body size (lines 50-52). -/
def EBlock.bodysize (e : EBlock) : Nat := e.EBEntries.length * HASH_LENGTH

/-- Loop of lines 87-89: `buf.Write(e.EBEntries[i].Bytes)` for `i` from the given index,
`n` more times. An index past the end of the body panics. -/
def EBlock.writeEntriesFlat (entries : List EBEntry) : Nat → Nat → Outcome (List Nat)
  | _, 0 => Outcome.ok []
  | i, n + 1 =>
    match entries[i]? with
    | none => Outcome.panic
    | some e => do
      let bytes ← derefHash e.EntryHash
      let rest ← EBlock.writeEntriesFlat entries (i + 1) n
      pure (bytes ++ rest)

/-- First `MarshalBinary` of `EBlock` (lines 74-92). It writes the four hashes
`ChainID`, `BodyMR`, `PrevKeyMR`, `PrevHash`, then the integers `EBHeight`, `DBHeight`,
`StartTime`, `EntryCount`, then `EntryCount` entries. `EBHeight` is taken as a `uint32`
like the chain height it is assigned from; the loop bound `EntryCount` is read as the
field of the receiver. The returned error is always nil. -/
def EBlock.MarshalBinaryFlat (b : EBlock) : Outcome (List Nat) := do
  let chainID ← derefHash b.ChainID
  let bodyMR ← derefHash b.BodyMR
  let prevKeyMR ← derefHash b.PrevKeyMR
  let prevHash ← derefHash b.PrevHash
  let body ← EBlock.writeEntriesFlat b.EBEntries 0 b.EntryCount
  pure (chainID ++ bodyMR ++ prevKeyMR ++ prevHash
    ++ beBytes 4 b.EBHeight ++ beBytes 4 b.DBHeight ++ b.StartTime ++ beBytes 4 b.EntryCount
    ++ body)

/-- Slice expression `data[n:]`: out of range when `n > len(data)`. -/
def sliceFrom (data : List Nat) (n : Nat) : Outcome (List Nat) :=
  if n ≤ data.length then Outcome.ok (data.drop n) else Outcome.panic

/-- Read of `binary.BigEndian.Uint32(data[0:4]), data[4:]` and of its 8-byte
counterpart: the value of the first `w` bytes and the rest; out of range when fewer
than `w` bytes are left. -/
def readBE (w : Nat) (data : List Nat) : Outcome (Nat × List Nat) :=
  if w ≤ data.length then Outcome.ok (beValue (data.take w), data.drop w) else Outcome.panic

/-- Loop of lines 67-69: `e.EBEntries[i], data, err = UnmarshalHash(data)`, `n` times.
The error of each call is overwritten by the next one and never tested. -/
def EBlock.readEntriesFlat (env : Env) : Nat → List Nat → List EBEntry × List Nat
  | 0, data => ([], data)
  | n + 1, data =>
    let r := env.UnmarshalHash data
    let rest := EBlock.readEntriesFlat env n r.2.1
    (NewEBEntry r.1 :: rest.1, rest.2)

/-- First `UnmarshalBinary` of `EBlock` (lines 56-72): four hashes through
`UnmarshalHash`, whose errors are overwritten, three `uint32` read from unguarded
slices, the `make` of the body (line 66), then `EntryCount` hashes. It returns nil
whenever it returns. -/
def EBlock.UnmarshalBinaryFlat (env : Env) (e : EBlock) (data : List Nat) : Outcome EBlock := do
  let r1 := env.UnmarshalHash data
  let r2 := env.UnmarshalHash r1.2.1
  let r3 := env.UnmarshalHash r2.2.1
  let r4 := env.UnmarshalHash r3.2.1
  let (ebSequence, data) ← readBE 4 r4.2.1
  let (dbHeight, data) ← readBE 4 data
  let (entryCount, data) ← readBE 4 data
  let _ ← makeSlice entryCount entryCount
  let entries := EBlock.readEntriesFlat env entryCount data
  pure { e with ChainID := r1.1, BodyMR := r2.1, PrevKeyMR := r3.1, PrevHash3 := r4.1,
                EBSequence := ebSequence, DBHeight := dbHeight, EntryCount := entryCount,
                EBEntries := entries.1 }

/-- Stub `(*EBlockHeader).UnmarshalBinary` (lines 95-99): it reads nothing, leaves the
header as it is and returns nil. -/
def EBlockHeader.UnmarshalBinary (b : EBlockHeader) (_data : List Nat) :
    EBlockHeader × Option String :=
  (b, none)

/-- Loop of lines 202-209: each entry is marshalled in body order; the first error
ends the call. -/
def EBlock.marshalEntries (env : Env) : List EBEntry → Outcome (List Nat)
  | [] => Outcome.ok []
  | e :: rest =>
    match env.EBEntryMarshalBinary e with
    | (_, some err) => Outcome.error err
    | (data, none) => do
      let more ← EBlock.marshalEntries env rest
      pure (data ++ more)

/-- Second `MarshalBinary` of `EBlock` (lines 187-212): the marshalled header, the
number of entries as a big-endian `uint64`, then each entry. -/
def EBlock.MarshalBinary (env : Env) (b : EBlock) : Outcome (List Nat) :=
  match env.HeaderMarshalBinary b.Header with
  | (_, some err) => Outcome.error err
  | (data, none) => do
    let count := b.EBEntries.length
    let body ← EBlock.marshalEntries env b.EBEntries
    pure (data ++ beBytes 8 count ++ body)

/-- Loop of lines 237-244: `count` times, a `new(EBEntry)` is decoded from the head of
the data; a decoder error is returned at once; otherwise the data is advanced by the
entry's marshalled size, which is out of range when fewer bytes are left. -/
def EBlock.unmarshalEntries (env : Env) : Nat → List Nat → Outcome (List EBEntry)
  | 0, _ => Outcome.ok []
  | n + 1, data =>
    match env.EBEntryUnmarshalBinary data with
    | (_, some err) => Outcome.error err
    | (entry, none) => do
      let data ← sliceFrom data (env.EBEntryMarshalledSize entry)
      let rest ← EBlock.unmarshalEntries env n data
      pure (entry :: rest)

/-- Second `UnmarshalBinary` of `EBlock` (lines 227-247). The header is
`new(EBlockHeader)` passed through the stub decoder, whose result is dropped.
`make([]*EBEntry, count)` at line 236 panics for a count out of range, before any
entry is decoded. The block returned on success is the receiver after the call; the
partly filled receiver left behind by an error is not part of the result. -/
def EBlock.UnmarshalBinary (env : Env) (b : EBlock) (data : List Nat) : Outcome EBlock := do
  let ebh := (EBlockHeader.UnmarshalBinary EBlockHeader.new data).1
  let data ← sliceFrom data (env.HeaderMarshalledSize ebh)
  let (count, data) ← readBE 8 data
  let _ ← makeSlice count count
  let entries ← EBlock.unmarshalEntries env count data
  pure { b with Header := some ebh, EBEntries := entries }

/-! ## Entry-credit blocks

None of the entry-credit block code is among the source files; only its test
`TestECBlockMarshal` is. The definitions of this section follow the spec (§3, §4.5,
§4.6, §6) and keep the names the test uses. -/

/-- Modelled from the spec: the choices §4.5 and §6 leave open in the entry-credit
block encoding, which is otherwise missing from the sources: the type-tag bytes of the
two ledger-entry variants and the widths in bytes of the big-endian directory-block
height, of the length prefix of the header expansion area and of the object count. -/
structure ECWire where
  tagCommitChain : Nat
  tagIncreaseBalance : Nat
  dbHeightWidth : Nat
  areaLenWidth : Nat
  objectCountWidth : Nat
  deriving Repr, DecidableEq

/-- Modelled from the spec: the `CommitChain` type is missing from the sources; §3
gives its fields: version (`uint8`), 6-byte timestamp, three hashes, credits (`int8`),
32-byte public key and 64-byte signature. -/
structure CommitChain where
  Version : Nat
  MilliTime : List Nat
  ChainIDHash : Hash
  Weld : Hash
  EntryHash : Hash
  Credits : Int
  ECPubKey : List Nat
  Sig : List Nat
  deriving Repr, DecidableEq

/-- Modelled from the spec: the `IncreaseBalance` type is missing from the sources; §3
gives its fields: 32-byte public key, transaction hash and credit amount (`uint64`). -/
structure IncreaseBalance where
  ECPubKey : List Nat
  TXID : Hash
  NumEC : Nat
  deriving Repr, DecidableEq

/-- Modelled from the spec: the entries of an entry-credit block body are missing from
the sources; per §3 and §9 they form a closed tagged union of ledger-entry variants. -/
inductive ECBlockEntry where
  | commitChain (c : CommitChain)
  | increaseBalance (i : IncreaseBalance)
  deriving Repr, DecidableEq

/-- Modelled from the spec: the header of `ECBlock` is missing from the sources; §2
lists its fields, named here as the test sets them. -/
structure ECBlockHeader where
  ECChainID : Hash
  BodyHash : Hash
  PrevHeaderHash : Hash
  PrevLedgerKeyMR : Hash
  DBHeight : Nat
  HeaderExpansionArea : List Nat
  ObjectCount : Nat
  deriving Repr, DecidableEq

/-- Modelled from the spec: the `ECBlock` type is missing from the sources; per §3 it
is a header and an ordered body of ledger entries. -/
structure ECBlock where
  Header : ECBlockHeader
  Body : List ECBlockEntry
  deriving Repr, DecidableEq

/-- Modelled from the spec: `NewECBlock` is missing from the sources; a fresh block has
zero hashes, height and count 0, and an empty expansion area and body. -/
def NewECBlock : ECBlock :=
  { Header := { ECChainID := List.replicate 32 0, BodyHash := List.replicate 32 0,
                PrevHeaderHash := List.replicate 32 0, PrevLedgerKeyMR := List.replicate 32 0,
                DBHeight := 0, HeaderExpansionArea := [], ObjectCount := 0 },
    Body := [] }

/-- Modelled from the spec: `ECBlock.AddEntry` is missing from the sources; per §4.5 it
appends the entry to the body and increments `ObjectCount`. -/
def ECBlock.AddEntry (e : ECBlock) (entry : ECBlockEntry) : ECBlock :=
  { Header := { e.Header with ObjectCount := e.Header.ObjectCount + 1 },
    Body := e.Body ++ [entry] }

/-- Modelled from the spec: `CommitChain.CommitMsg` is missing from the sources; per
§4.6 the signable message is the version byte, the timestamp, the chain-id hash, the
weld, the entry hash and the credits byte (an `int8` in two's complement). -/
def CommitChain.CommitMsg (c : CommitChain) : List Nat :=
  beBytes 1 c.Version ++ c.MilliTime ++ c.ChainIDHash ++ c.Weld ++ c.EntryHash
    ++ [(c.Credits % 256).toNat]

/-- Modelled from the spec: `CommitChain.MarshalBinary` is missing from the sources;
per §4.6 it is the signable message followed by the public key and the signature. -/
def CommitChain.MarshalBinary (c : CommitChain) : List Nat :=
  c.CommitMsg ++ c.ECPubKey ++ c.Sig

/-- Modelled from the spec: `IncreaseBalance.MarshalBinary` is missing from the
sources; per §4.6 it is the public key (32 bytes), the transaction hash (32 bytes) and
the credit amount (8 bytes, big-endian). -/
def IncreaseBalance.MarshalBinary (i : IncreaseBalance) : List Nat :=
  i.ECPubKey ++ i.TXID ++ beBytes 8 i.NumEC

/-- Modelled from the spec: the entry encoder of `ECBlock` is missing from the sources;
per §4.5 each body entry is one type-tag byte followed by the variant's encoding. -/
def ECBlockEntry.MarshalBinary (w : ECWire) : ECBlockEntry → List Nat
  | ECBlockEntry.commitChain c => [w.tagCommitChain] ++ c.MarshalBinary
  | ECBlockEntry.increaseBalance i => [w.tagIncreaseBalance] ++ i.MarshalBinary

/-- Modelled from the spec: the header encoder of `ECBlock` is missing from the
sources; per §4.5 and §6 the header fields are written in their fixed order, hashes on
32 bytes, integers big-endian, the expansion area behind its length. -/
def ECBlockHeader.MarshalBinary (w : ECWire) (h : ECBlockHeader) : List Nat :=
  h.ECChainID ++ h.BodyHash ++ h.PrevHeaderHash ++ h.PrevLedgerKeyMR
    ++ beBytes w.dbHeightWidth h.DBHeight
    ++ beBytes w.areaLenWidth h.HeaderExpansionArea.length ++ h.HeaderExpansionArea
    ++ beBytes w.objectCountWidth h.ObjectCount

/-- Modelled from the spec: `ECBlock.MarshalBinary` is missing from the sources; per
§4.5 it is the header followed by each body entry in insertion order. -/
def ECBlock.MarshalBinary (w : ECWire) (e : ECBlock) : List Nat :=
  e.Header.MarshalBinary w ++ (e.Body.map (ECBlockEntry.MarshalBinary w)).flatten

/-- Modelled from the spec: reading a fixed number of bytes in the missing decoders;
per §4.4 and §4.5 a decoder fails with `Truncated` when fewer bytes remain than the
field requires. -/
def takeBytes (n : Nat) (data : List Nat) : Outcome (List Nat × List Nat) :=
  if n ≤ data.length then Outcome.ok (data.take n, data.drop n)
  else Outcome.error "Truncated"

/-- Modelled from the spec: reading a big-endian integer of `w` bytes in the missing
decoders (§6). -/
def takeUint (w : Nat) (data : List Nat) : Outcome (Nat × List Nat) := do
  let (bytes, rest) ← takeBytes w data
  pure (beValue bytes, rest)

/-- Modelled from the spec: `CommitChain.UnmarshalBinary` is missing from the sources;
per §4.6 the encoding is of fixed length, so each field is read on its known width. -/
def CommitChain.UnmarshalBinary (data : List Nat) : Outcome (CommitChain × List Nat) := do
  let (version, data) ← takeUint 1 data
  let (milliTime, data) ← takeBytes 6 data
  let (chainIDHash, data) ← takeBytes 32 data
  let (weld, data) ← takeBytes 32 data
  let (entryHash, data) ← takeBytes 32 data
  let (credits, data) ← takeUint 1 data
  let (pubKey, data) ← takeBytes 32 data
  let (sig, data) ← takeBytes 64 data
  pure ({ Version := version, MilliTime := milliTime, ChainIDHash := chainIDHash,
          Weld := weld, EntryHash := entryHash,
          Credits := if credits < 128 then (credits : Int) else (credits : Int) - 256,
          ECPubKey := pubKey, Sig := sig }, data)

/-- Modelled from the spec: `IncreaseBalance.UnmarshalBinary` is missing from the
sources; per §4.6 it reads 32, 32 and 8 bytes. -/
def IncreaseBalance.UnmarshalBinary (data : List Nat) : Outcome (IncreaseBalance × List Nat) := do
  let (pubKey, data) ← takeBytes 32 data
  let (txid, data) ← takeBytes 32 data
  let (numEC, data) ← takeUint 8 data
  pure ({ ECPubKey := pubKey, TXID := txid, NumEC := numEC }, data)

/-- Modelled from the spec: the entry decoder of `ECBlock` is missing from the sources;
per §4.5 it reads the tag byte first and dispatches to the matching variant decoder,
failing with `UnknownEntryType` on an unrecognized tag. -/
def ECBlockEntry.UnmarshalBinary (w : ECWire) (data : List Nat) :
    Outcome (ECBlockEntry × List Nat) := do
  let (tag, data) ← takeUint 1 data
  if tag = w.tagCommitChain then do
    let (c, data) ← CommitChain.UnmarshalBinary data
    pure (ECBlockEntry.commitChain c, data)
  else if tag = w.tagIncreaseBalance then do
    let (i, data) ← IncreaseBalance.UnmarshalBinary data
    pure (ECBlockEntry.increaseBalance i, data)
  else Outcome.error "UnknownEntryType"

/-- Modelled from the spec: the body decoder of `ECBlock` is missing from the sources;
it decodes as many entries as the header's object count declares (§3: `ObjectCount ==
len(body)`). -/
def ECBlock.unmarshalBody (w : ECWire) : Nat → List Nat → Outcome (List ECBlockEntry × List Nat)
  | 0, data => Outcome.ok ([], data)
  | n + 1, data => do
    let (entry, data) ← ECBlockEntry.UnmarshalBinary w data
    let (rest, data) ← ECBlock.unmarshalBody w n data
    pure (entry :: rest, data)

/-- Modelled from the spec: the header decoder of `ECBlock` is missing from the
sources; it reads the header fields in the order they are written. -/
def ECBlockHeader.UnmarshalBinary (w : ECWire) (data : List Nat) :
    Outcome (ECBlockHeader × List Nat) := do
  let (ecChainID, data) ← takeBytes 32 data
  let (bodyHash, data) ← takeBytes 32 data
  let (prevHeaderHash, data) ← takeBytes 32 data
  let (prevLedgerKeyMR, data) ← takeBytes 32 data
  let (dbHeight, data) ← takeUint w.dbHeightWidth data
  let (areaLen, data) ← takeUint w.areaLenWidth data
  let (area, data) ← takeBytes areaLen data
  let (objectCount, data) ← takeUint w.objectCountWidth data
  pure ({ ECChainID := ecChainID, BodyHash := bodyHash, PrevHeaderHash := prevHeaderHash,
          PrevLedgerKeyMR := prevLedgerKeyMR, DBHeight := dbHeight,
          HeaderExpansionArea := area, ObjectCount := objectCount }, data)

/-- Modelled from the spec: `ECBlock.UnmarshalBinary` is missing from the sources; per
§4.5 it is the inverse of `MarshalBinary`: the header, then the body entries. The
decoded header and body replace those of the receiver. -/
def ECBlock.UnmarshalBinary (w : ECWire) (_e : ECBlock) (data : List Nat) : Outcome ECBlock := do
  let (header, data) ← ECBlockHeader.UnmarshalBinary w data
  let (body, _) ← ECBlock.unmarshalBody w header.ObjectCount data
  pure { Header := header, Body := body }

/-- Well-formed wire choices: the two type tags are distinct bytes. -/
def ECWire.Valid (w : ECWire) : Prop :=
  w.tagCommitChain < 256 ∧ w.tagIncreaseBalance < 256 ∧ w.tagCommitChain ≠ w.tagIncreaseBalance

/-- Well-formed `CommitChain`: every field has the size §3 gives it. -/
def CommitChain.Valid (c : CommitChain) : Prop :=
  c.Version < 256 ∧ c.MilliTime.length = 6 ∧ c.ChainIDHash.length = 32 ∧ c.Weld.length = 32 ∧
  c.EntryHash.length = 32 ∧ -128 ≤ c.Credits ∧ c.Credits ≤ 127 ∧ c.ECPubKey.length = 32 ∧
  c.Sig.length = 64

/-- Well-formed `IncreaseBalance`: every field has the size §3 gives it. -/
def IncreaseBalance.Valid (i : IncreaseBalance) : Prop :=
  i.ECPubKey.length = 32 ∧ i.TXID.length = 32 ∧ i.NumEC < 256 ^ 8

/-- Well-formed body entry. -/
def ECBlockEntry.Valid : ECBlockEntry → Prop
  | ECBlockEntry.commitChain c => c.Valid
  | ECBlockEntry.increaseBalance i => i.Valid

/-- Header fields as a caller may set them on a fresh block before adding entries:
32-byte hashes, a height and an expansion area that fit their encoded widths, and an
object count of 0. -/
def ECBlockHeader.Valid (w : ECWire) (h : ECBlockHeader) : Prop :=
  h.ECChainID.length = 32 ∧ h.BodyHash.length = 32 ∧ h.PrevHeaderHash.length = 32 ∧
  h.PrevLedgerKeyMR.length = 32 ∧ h.DBHeight < 256 ^ w.dbHeightWidth ∧
  h.HeaderExpansionArea.length < 256 ^ w.areaLenWidth ∧ h.ObjectCount = 0

instance (w : ECWire) : Decidable w.Valid := by
  unfold ECWire.Valid
  infer_instance

instance (c : CommitChain) : Decidable c.Valid := by
  unfold CommitChain.Valid
  infer_instance

instance (i : IncreaseBalance) : Decidable i.Valid := by
  unfold IncreaseBalance.Valid
  infer_instance

instance (x : ECBlockEntry) : Decidable x.Valid := by
  cases x <;> unfold ECBlockEntry.Valid <;> infer_instance

instance (w : ECWire) (h : ECBlockHeader) : Decidable (h.Valid w) := by
  unfold ECBlockHeader.Valid
  infer_instance

/-- The block of the claim: a fresh `NewECBlock` whose header fields are set, to which
the entries are then added in order with `AddEntry`. -/
def buildECBlock (h : ECBlockHeader) (entries : List ECBlockEntry) : ECBlock :=
  entries.foldl ECBlock.AddEntry { NewECBlock with Header := h }

/-- Caller loop of the sequence scenario: blocks are created one after the other on
the same chain, the first with no previous block and each later one with the block
created just before; after each successful creation the caller advances the `uint32`
field `chain.NextBlockHeight` by one (`chain.NextBlockHeight++`). One capacity is
given per call; the outcomes of the calls are returned in order. -/
def createSequence (env : Env) : EChain → Option EBlock → List Nat → List (Outcome EBlock)
  | _, _, [] => []
  | chain, prev, capacity :: rest =>
    let r := CreateBlock env chain prev capacity
    match r.ret with
    | Outcome.ok b =>
      Outcome.ok b ::
        createSequence env
          { r.chain with NextBlockHeight := (r.chain.NextBlockHeight + 1) % 2 ^ 32 }
          (some b) rest
    | other => other :: createSequence env r.chain r.prev rest

/-! ## Entry chains: binary codec -/

/-- Slice expression `data[:n]`: out of range when `n > len(data)`. -/
def sliceTo (data : List Nat) (n : Nat) : Outcome (List Nat) :=
  if n ≤ data.length then Outcome.ok (data.take n) else Outcome.panic

/-- Method `(*EChain).MarshalBinary` (lines 313-331): the marshalled chain id, followed
by the marshalled first entry when there is one. -/
def EChain.MarshalBinary (env : Env) (b : EChain) : Outcome (List Nat) :=
  match env.HashMarshalBinary b.ChainID with
  | (_, some err) => Outcome.error err
  | (data, none) =>
    match b.FirstEntry with
    | none => Outcome.ok data
    | some entry =>
      match env.EntryMarshalBinary entry with
      | (_, some err) => Outcome.error err
      | (more, none) => Outcome.ok (data ++ more)

/-- Method `(*EChain).UnmarshalBinary` (lines 334-344): the chain id is decoded from
`data[:33]` into `new(Hash)`; a first entry is decoded from the rest only when more
than `HASH_LENGTH` bytes are left. The errors of both decoders are dropped and the
call returns nil. The chain returned is the receiver after the call. -/
def EChain.UnmarshalBinary (env : Env) (b : EChain) (data : List Nat) : Outcome EChain := do
  let head ← sliceTo data 33
  let chainID := (env.HashUnmarshalBinary head).1
  let data ← sliceFrom data 33
  if data.length > HASH_LENGTH then
    pure { b with ChainID := some chainID,
                  FirstEntry := some (env.EntryUnmarshalBinary data).1 }
  else
    pure { b with ChainID := some chainID }

/-- Zero value `new(EChain)`. -/
def EChain.new : EChain := { ChainID := none, NextBlockHeight := 0, FirstEntry := none }

/-! ## Entry store (`database/ldb/entry.go`) -/

/-- Constants and functions `entry.go` uses but that are defined outside the source
files: the table tags, the queue status, and the timestamp of an entry (an `int64`). -/
structure LdbEnv where
  /-- Constant `TBL_ENTRY`. -/
  TBL_ENTRY : Nat
  /-- Constant `TBL_ENTRY_QUEUE`. -/
  TBL_ENTRY_QUEUE : Nat
  /-- Constant `STATUS_IN_QUEUE`. -/
  STATUS_IN_QUEUE : Nat
  /-- Method `(*Entry).TimeStamp()`. -/
  TimeStamp : Entry → Int
  /-- Method `(*Entry).UnmarshalBinary(data)` called on a nil receiver, as
  `FetchEntryByHash` does: the returned error, or a panic. -/
  EntryUnmarshalBinaryNil : List Nat → Outcome (Option String)

/-- Pending writes of a `leveldb.Batch`, oldest first. -/
abbrev Batch := List (List Nat × List Nat)

/-- Modelled from the spec: the key-value store is an external collaborator with the
contract `put(key, value)` / `get(key) -> value` (§6); its content is the list of the
pairs written, the latest first. -/
abbrev Store := List (List Nat × List Nat)

/-- Modelled from the spec: `get(key)` of the key-value store: the value written last
under the key, if any. -/
def Store.get (store : Store) (key : List Nat) : Option (List Nat) :=
  List.lookup key store

/-- Modelled from the spec: writing a batch to the key-value store applies its puts in
order. -/
def Store.write (store : Store) (batch : Batch) : Store :=
  batch.foldl (fun st kv => kv :: st) store

/-- State of a `LevelDb`: the store `lDb` and the batch `lbatch` (nil before its first
use). The lock `dbLock` and the read and write options are not modelled. -/
structure LevelDb where
  lDb : Store
  lbatch : Option Batch
  deriving Repr, DecidableEq

/-- Key of an entry, built at lines 24-25 and again at lines 55-56: the table tag as a
byte, then the bytes of the entry hash. -/
def entryKey (ldb : LdbEnv) (entrySha : Hash) : List Nat :=
  [ldb.TBL_ENTRY % 256] ++ entrySha

/-- Key of a queue record, built at lines 30-37: the table tag as a byte, the chain id,
the timestamp converted to `uint64` and written big-endian on 8 bytes, then the bytes
of the entry hash. -/
def entryQueueKey (ldb : LdbEnv) (chainID : List Nat) (timeStamp : Int) (entrySha : Hash) :
    List Nat :=
  [ldb.TBL_ENTRY_QUEUE % 256] ++ chainID ++ beBytes 8 (timeStamp % 2 ^ 64).toNat ++ entrySha

/-- Method `(*LevelDb).InsertEntryAndQueue` (lines 15-48): the database after the call
and the returned error. The pointer arguments are taken non-nil; `writeErr` is the
error of `db.lDb.Write`, an input-output outcome of the external store. The deferred
`Reset` leaves the batch empty in every case. -/
def LevelDb.InsertEntryAndQueue (ldb : LdbEnv) (db : LevelDb) (entrySha : Hash)
    (binaryEntry : List Nat) (entry : Entry) (chainID : List Nat) (writeErr : Option String) :
    LevelDb × Option String :=
  let lbatch : Batch := db.lbatch.getD []
  let lbatch := lbatch ++ [(entryKey ldb entrySha, binaryEntry)]
  let key := entryQueueKey ldb chainID (ldb.TimeStamp entry) entrySha
  let lbatch := lbatch ++ [(key, [ldb.STATUS_IN_QUEUE % 256])]
  match writeErr with
  | some err => ({ db with lbatch := some [] }, some err)
  | none => ({ lDb := db.lDb.write lbatch, lbatch := some [] }, none)

/-- What a call of `FetchEntryByHash` does: the key it reads, the data `Get` returns
for it (nil when the key is absent), and the returned `(entry, err)`. -/
structure FetchResult where
  key : List Nat
  data : Option (List Nat)
  ret : Outcome (Option Entry × Option String)
  deriving Repr, DecidableEq

/-- Method `(*LevelDb).FetchEntryByHash` (lines 51-62). The error of `Get` is dropped;
the result `entry` is never assigned, so it is nil when the call returns, and the
returned error is nil. -/
def LevelDb.FetchEntryByHash (ldb : LdbEnv) (db : LevelDb) (entrySha : Hash) : FetchResult :=
  let key := entryKey ldb entrySha
  let data := db.lDb.get key
  { key := key, data := data,
    ret := match ldb.EntryUnmarshalBinaryNil (data.getD []) with
      | Outcome.panic => Outcome.panic
      | _ => Outcome.ok (none, none) }

/-- Lexicographic order on byte strings (`bytes.Compare(a, b) < 0`), the order of the
keys of the store. -/
def bytesLess : List Nat → List Nat → Bool
  | [], [] => false
  | [], _ :: _ => true
  | _ :: _, [] => false
  | a :: as, b :: bs => decide (a < b) || (decide (a = b) && bytesLess as bs)

/-! ## Block timer (`restapi/timer.go`) -/

/-- Instant of time: nanoseconds elapsed since the zero time, read in UTC. -/
abbrev Time := Nat

/-- Nanoseconds in a second. -/
def nanosPerSecond : Nat := 1000000000

/-- Nanoseconds in a minute (`time.Minute`). -/
def nanosPerMinute : Nat := 60 * nanosPerSecond

/-- Method `t.Round(time.Minute)` of the Go library: the nearest multiple of a minute,
halfway values rounding up. -/
def Time.Round (t : Time) : Time :=
  let r := t % nanosPerMinute
  if r + r < nanosPerMinute then t - r else t + (nanosPerMinute - r)

/-- Method `t.Minute()` of the Go library: the minute offset within the hour. -/
def Time.Minute (t : Time) : Nat := t / nanosPerMinute % 60

/-- Method `t.Second()` of the Go library: the second offset within the minute. -/
def Time.Second (t : Time) : Nat := t / nanosPerSecond % 60

/-- Message `wire.MsgInt_EOM`, with the two fields the timer sets. -/
structure MsgInt_EOM where
  EOM_Type : Nat
  NextDBlockHeight : Nat
  deriving Repr, DecidableEq

/-- Timer state (lines 14-17); the channel `inCtlMsgQueue` is represented by the
messages sent on it. -/
structure BlockTimer where
  nextDBlockHeight : Nat
  deriving Repr, DecidableEq

/-- What the timer does, in order: sleeping for a duration in nanoseconds, and sending
a message on `inCtlMsgQueue`. -/
inductive TimerEvent where
  | sleep (nanos : Nat)
  | send (msg : MsgInt_EOM)
  deriving Repr, DecidableEq

/-- Duration passed to `time.Sleep` at lines 32-38 for the current time `t0`, in
nanoseconds (`int` is taken 64 bits wide). -/
def sleepDuration (t0 : Time) : Nat :=
  let t0_round := Time.Round t0
  if t0 < t0_round then (60 + Time.Second t0) * 1000000000
  else (60 - Time.Second t0) * 1000000000

/-- Loop of lines 29-49, with the iteration number, `minutesPassed` and a bound on the
number of iterations; `clock i` is what `time.Now()` returns in iteration `i`, and
`eom1` is the constant `wire.END_MINUTE_1`, a byte defined outside the source files.
The result is `none` when the bound is reached before the loop ends. A send is taken
to return, that is, the processor receives from the channel. -/
def BlockTimer.loop (eom1 : Nat) (bt : BlockTimer) (clock : Nat → Time) :
    Nat → Nat → Nat → Option (List TimerEvent)
  | 0, _, minutesPassed => if minutesPassed < 10 then none else some []
  | fuel + 1, i, minutesPassed =>
    if minutesPassed < 10 then
      let t0 := clock i
      let eomMsg : MsgInt_EOM :=
        { EOM_Type := (eom1 + minutesPassed % 256) % 256,
          NextDBlockHeight := bt.nextDBlockHeight }
      (BlockTimer.loop eom1 bt clock fuel (i + 1) (minutesPassed + 1)).map
        (fun rest => TimerEvent.sleep (sleepDuration t0) :: TimerEvent.send eomMsg :: rest)
    else some []

/-- Method `(*BlockTimer).StartBlockTimer` (lines 20-51); `now` is what the first
`time.Now()` returns. -/
def BlockTimer.StartBlockTimer (eom1 : Nat) (bt : BlockTimer) (now : Time) (clock : Nat → Time)
    (fuel : Nat) : Option (List TimerEvent) :=
  let roundTime := Time.Round now
  let minutesPassed := Time.Minute roundTime - (Time.Minute roundTime / 10) * 10
  BlockTimer.loop eom1 bt clock fuel 0 minutesPassed

/-- Messages sent, in order. -/
def sentMessages : List TimerEvent → List MsgInt_EOM
  | [] => []
  | TimerEvent.sleep _ :: rest => sentMessages rest
  | TimerEvent.send msg :: rest => msg :: sentMessages rest

/-- Durations slept, in order. -/
def sleptDurations : List TimerEvent → List Nat
  | [] => []
  | TimerEvent.sleep d :: rest => d :: sleptDurations rest
  | TimerEvent.send _ :: rest => sleptDurations rest

/-- An instance of the external functions on which the definitions can be evaluated.
Hashes are stood in for by a byte checksum and the Merkle tree by the leaves followed
by one digest of all of them; the codecs write hashes as their 32 bytes. -/
def sampleEnv : Env where
  VERSION_0 := 0
  Sha := fun data => List.replicate 32 (data.sum % 251)
  BuildMerkleTreeStore := fun hashes =>
    hashes ++ [some (List.replicate 32 ((hashes.map (fun h => (h.getD []).sum)).sum % 251))]
  HeaderMarshalBinary := fun header =>
    match header with
    | none => ([], some "nil header")
    | some h =>
      ([h.Version % 256] ++ h.ChainID.getD [] ++ h.BodyMR.getD [] ++ h.PrevKeyMR.getD []
        ++ h.PrevHash.getD [] ++ beBytes 4 h.EBHeight, none)
  HeaderMarshalledSize := fun _ => 133
  EBEntryMarshalBinary := fun e => (e.EntryHash.getD [], none)
  EBEntryUnmarshalBinary := fun data =>
    if data.length < 32 then ({ EntryHash := none }, some "entry truncated")
    else ({ EntryHash := some (data.take 32) }, none)
  EBEntryMarshalledSize := fun _ => 32
  UnmarshalHash := fun data =>
    if data.length < 32 then (none, data, some "hash truncated")
    else (some (data.take 32), data.drop 32, none)
  CreateHash := fun entry =>
    if entry = [] then (none, some "empty entry")
    else (some (List.replicate 32 (entry.sum % 251)), none)
  HashMarshalBinary := fun h => ([(h.getD []).length % 256] ++ h.getD [], none)
  HashUnmarshalBinary := fun data =>
    if data.length < 33 then ([], some "hash truncated") else ((data.drop 1).take 32, none)
  EntryMarshalBinary := fun entry => (entry, none)
  EntryUnmarshalBinary := fun data => (data, none)

/-- A fresh chain (height 0) whose id is 32 bytes `0xAA`. -/
def sampleChain : EChain :=
  { ChainID := some (List.replicate 32 170), NextBlockHeight := 0, FirstEntry := none }

/-- The sample chain once its origin block has been created. -/
def sampleChain1 : EChain := { sampleChain with NextBlockHeight := 1 }

/-- The origin block `CreateBlock` returns for `sampleChain`. -/
def sampleOrigin : EBlock :=
  { EBlock.new with
    Header := some { EBlockHeader.new with
                     Version := 0, ChainID := some (List.replicate 32 170), EBHeight := 0,
                     PrevHash := NewHash, PrevKeyMR := NewHash }
    Chain := some sampleChain }

/-- The origin block of the sample chain, once hashed to 32 bytes `0x07`. -/
def samplePrev : EBlock := { sampleOrigin with EBHash := some (List.replicate 32 7) }

/-- The header of the second block of the sample chain. -/
def sampleSecondHeader : EBlockHeader :=
  { EBlockHeader.new with
    Version := 0, ChainID := some (List.replicate 32 170), EBHeight := 1,
    PrevHash := some (List.replicate 32 7), PrevKeyMR := some (List.replicate 32 137) }

/-- The second block `CreateBlock` returns for the sample chain after `samplePrev`. -/
def sampleSecond : EBlock :=
  { EBlock.new with Header := some sampleSecondHeader, Chain := some sampleChain1 }

/-- A block in the declared layout: four 32-byte hashes, sequence 1, directory block
height 10, one entry, and a `StartTime` of zero written as a `uint64`. -/
def sampleFlat : EBlock :=
  { EBlock.new with
    ChainID := some (List.replicate 32 170), BodyMR := some (List.replicate 32 187),
    PrevKeyMR := some (List.replicate 32 204), PrevHash3 := some (List.replicate 32 221),
    EBSequence := 1, DBHeight := 10, EntryCount := 1,
    EBEntries := [{ EntryHash := some (List.replicate 32 1) }],
    PrevHash := some (List.replicate 32 221), EBHeight := 1, StartTime := beBytes 8 0 }

/-- A second block of the sample chain with a body Merkle root and one entry. -/
def sampleLinked : EBlock :=
  { sampleSecond with
    Header := some { sampleSecondHeader with BodyMR := some (List.replicate 32 187) }
    EBEntries := [{ EntryHash := some (List.replicate 32 1) }] }

/-- Bytes the second `MarshalBinary` writes for `sampleLinked` on the sample
environment: 133 header bytes, the count 1 on 8 bytes, the 32 bytes of the entry. -/
def sampleLinkedBytes : List Nat :=
  [0] ++ List.replicate 32 170 ++ List.replicate 32 187 ++ List.replicate 32 137
    ++ List.replicate 32 7 ++ [0, 0, 0, 1] ++ [0, 0, 0, 0, 0, 0, 0, 1] ++ List.replicate 32 1

/-- A byte string that stops 5 bytes into its only declared entry. -/
def sampleTruncated : List Nat :=
  List.replicate 133 0 ++ [0, 0, 0, 0, 0, 0, 0, 1] ++ [1, 1, 1, 1, 1]

/-- One choice of the open wire parameters: tags 2 and 4, a 4-byte height, 8-byte
area length and object count. -/
def sampleWire : ECWire :=
  { tagCommitChain := 2, tagIncreaseBalance := 4, dbHeightWidth := 4, areaLenWidth := 8,
    objectCountWidth := 8 }

/-- Repetition of one byte 32 times (`byteof` in the test). -/
def byteof (b : Nat) : List Nat := List.replicate 32 b

/-- The `CommitChain` of `TestECBlockMarshal`; the key and the signature, random in
the test, are fixed byte strings of the right length. -/
def testCommitChain : CommitChain :=
  { Version := 0, MilliTime := [1, 1, 1, 1, 1, 1], ChainIDHash := byteof 170,
    Weld := byteof 187, EntryHash := byteof 204, Credits := 11,
    ECPubKey := byteof 9, Sig := List.replicate 64 8 }

/-- The `IncreaseBalance` of `TestECBlockMarshal`. -/
def testIncreaseBalance : IncreaseBalance :=
  { ECPubKey := byteof 170, TXID := byteof 187, NumEC := 12 }

/-- The header fields `TestECBlockMarshal` sets before adding entries. -/
def testECHeader : ECBlockHeader :=
  { ECChainID := byteof 17, BodyHash := byteof 34, PrevHeaderHash := byteof 51,
    PrevLedgerKeyMR := byteof 68, DBHeight := 10, HeaderExpansionArea := byteof 85,
    ObjectCount := 0 }

/-- The entries `TestECBlockMarshal` adds, in order. -/
def testECEntries : List ECBlockEntry :=
  [ECBlockEntry.commitChain testCommitChain, ECBlockEntry.increaseBalance testIncreaseBalance]

/-- An entry of three bytes. -/
def sampleEntry : Entry := [1, 2, 3]

/-- The sample origin block once sealed. -/
def sampleSealed : EBlock := { sampleOrigin with IsSealed := true }

/-- The sample origin block with one entry in its body. -/
def sampleWithEntry : EBlock :=
  { sampleOrigin with EBEntries := [{ EntryHash := some (List.replicate 32 1) }] }

/-- A chain whose first entry is the three-byte sample entry. -/
def sampleEChain : EChain :=
  { ChainID := some (List.replicate 32 170), NextBlockHeight := 0, FirstEntry := some sampleEntry }

/-- A chain whose first entry is 40 bytes long. -/
def sampleEChainLong : EChain :=
  { ChainID := some (List.replicate 32 170), NextBlockHeight := 0,
    FirstEntry := some (List.replicate 40 5) }

/-- One choice of the constants of the entry store: tags 1 and 2, status 0; the
timestamp of an entry is its first byte. -/
def sampleLdb : LdbEnv :=
  { TBL_ENTRY := 1, TBL_ENTRY_QUEUE := 2, STATUS_IN_QUEUE := 0,
    TimeStamp := fun entry => (entry.headD 0 : Nat),
    EntryUnmarshalBinaryNil := fun _ => Outcome.panic }

/-- An empty database whose batch has not been used yet. -/
def sampleDb : LevelDb := { lDb := [], lbatch := none }

/-- A timer whose next directory block height is 7. -/
def sampleTimer : BlockTimer := { nextDBlockHeight := 7 }

/-- A clock that reads 45 seconds past a minute in every iteration. -/
def sampleClock : Nat → Time := fun _ => 45 * nanosPerSecond


/-- A byte string whose declared entry count is `2 ^ 64 - 1`. -/
def sampleHugeCount : List Nat :=
  List.replicate 133 0 ++ List.replicate 8 255 ++ [1, 2, 3]

/-! ## Theorems: block creation -/

theorem sampleEnv_store_ne_nil (l : List HashPtr) : sampleEnv.BuildMerkleTreeStore l ≠ [] := by
  simp [sampleEnv]

theorem makeSlice_zero_of_le (cap : Nat) (h : cap ≤ maxPointerSliceCap) :
    makeSlice 0 cap = Outcome.ok () := by
  simp [makeSlice, h]

theorem makeSlice_of_lt (len cap : Nat) (h : maxPointerSliceCap < cap) :
    makeSlice len cap = Outcome.panic := by
  simp [makeSlice, Nat.not_le.mpr h]

/-- With a header and a tree store that is never empty, `BuildMerkleRoot` returns. -/
theorem BuildMerkleRoot_ok (env : Env) (hstore : ∀ l, env.BuildMerkleTreeStore l ≠ [])
    (p : EBlock) (hhdr : p.Header ≠ none) : ∃ q, p.BuildMerkleRoot env = Outcome.ok q := by
  unfold EBlock.BuildMerkleRoot
  simp only
  cases hh : p.Header with
  | none => exact absurd hh hhdr
  | some header =>
    simp only
    cases h : (env.BuildMerkleTreeStore
        [some (env.Sha (env.HeaderMarshalBinary (some header)).1), header.BodyMR]).getLast? with
    | none => exact absurd (List.getLast?_eq_none_iff.mp h) (hstore _)
    | some root => exact ⟨_, rfl⟩

/-- `BuildMerkleRoot` never returns an error. -/
theorem BuildMerkleRoot_ne_error (env : Env) (p : EBlock) (msg : String) :
    p.BuildMerkleRoot env ≠ Outcome.error msg := by
  unfold EBlock.BuildMerkleRoot
  simp only
  split
  · simp
  · split <;> simp

/-- Without a header, `BuildMerkleRoot` panics. -/
theorem BuildMerkleRoot_nil_header (env : Env) (p : EBlock) (hhdr : p.Header = none) :
    p.BuildMerkleRoot env = Outcome.panic := by
  unfold EBlock.BuildMerkleRoot
  simp only [hhdr]

/-- Result of `CreateBlock` without a previous block on a chain at height 0. -/
theorem CreateBlock_origin (env : Env) (chain : EChain) (capacity : Nat)
    (hz : chain.NextBlockHeight = 0) :
    (CreateBlock env chain none capacity).ret =
      if capacity ≤ maxPointerSliceCap then
        Outcome.ok { EBlock.new with
          Header := some { EBlockHeader.new with
            Version := env.VERSION_0, ChainID := chain.ChainID,
            EBHeight := chain.NextBlockHeight, PrevHash := NewHash, PrevKeyMR := NewHash },
          Chain := some chain, EBEntries := [], IsSealed := false }
      else Outcome.panic := by
  by_cases hcap : capacity ≤ maxPointerSliceCap
  · simp [CreateBlock, hz, makeSlice, hcap]
  · simp [CreateBlock, hz, makeSlice, hcap]

/-- Result of `CreateBlock` after a previous block on a chain past height 0, in terms
of the previous block as the call leaves it. -/
theorem CreateBlock_next (env : Env) (chain : EChain) (p : EBlock) (capacity : Nat)
    (hz : chain.NextBlockHeight ≠ 0) :
    (∀ q, (if p.MerkleRoot = none then p.BuildMerkleRoot env else Outcome.ok p) = Outcome.ok q →
      (CreateBlock env chain (some p) capacity).prev = some q ∧
      (CreateBlock env chain (some p) capacity).ret =
        if capacity ≤ maxPointerSliceCap then
          Outcome.ok { EBlock.new with
            Header := some { EBlockHeader.new with
              Version := env.VERSION_0, ChainID := chain.ChainID,
              EBHeight := chain.NextBlockHeight, PrevHash := p.EBHash,
              PrevKeyMR := q.MerkleRoot },
            Chain := some chain, EBEntries := [], IsSealed := false }
        else Outcome.panic) ∧
    ((if p.MerkleRoot = none then p.BuildMerkleRoot env else Outcome.ok p) = Outcome.panic →
      (CreateBlock env chain (some p) capacity).ret = Outcome.panic) := by
  refine ⟨?_, ?_⟩
  · intro q hq
    by_cases hcap : capacity ≤ maxPointerSliceCap
    · simp [CreateBlock, hz, hq, makeSlice, hcap]
    · simp [CreateBlock, hz, hq, makeSlice, hcap]
  · intro hq
    simp [CreateBlock, hz, hq]

/-- The three outcomes of building the Merkle root of the previous block when it is
missing: a block or a panic, never an error. -/
theorem prev_built_cases (env : Env) (p : EBlock) :
    (∃ q, (if p.MerkleRoot = none then p.BuildMerkleRoot env else Outcome.ok p) = Outcome.ok q) ∨
    (if p.MerkleRoot = none then p.BuildMerkleRoot env else Outcome.ok p) = Outcome.panic := by
  by_cases hm : p.MerkleRoot = none
  · simp only [hm, if_true]
    cases hb : p.BuildMerkleRoot env with
    | ok q => exact Or.inl ⟨q, rfl⟩
    | error msg => exact absurd hb (BuildMerkleRoot_ne_error env p msg)
    | panic => exact Or.inr rfl
  · simp only [hm, if_false]
    exact Or.inl ⟨p, rfl⟩

/-- `CreateBlock` returns an error exactly when the linkage test fails. -/
theorem CreateBlock_error_iff_linkage (env : Env) (chain : EChain) (prev : Option EBlock)
    (capacity : Nat) :
    (∃ msg, (CreateBlock env chain prev capacity).ret = Outcome.error msg) ↔
      ¬ (prev = none ↔ chain.NextBlockHeight = 0) := by
  cases prev with
  | none =>
    by_cases hz : chain.NextBlockHeight = 0
    · rw [CreateBlock_origin env chain capacity hz]
      split <;> simp [hz]
    · simp [CreateBlock, hz]
  | some p =>
    by_cases hz : chain.NextBlockHeight = 0
    · simp [CreateBlock, hz]
    · have hnext := CreateBlock_next env chain p capacity hz
      rcases prev_built_cases env p with ⟨q, hq⟩ | hpanic
      · rw [(hnext.1 q hq).2]
        split <;> simp [hz]
      · rw [hnext.2 hpanic]
        simp [hz]

/-- Shape of a successful `CreateBlock`: the linkage test passed, the capacity is in
range, and the new block is `new(EBlock)` with the header, chain, body and seal flag
that lines 108-129 assign. -/
theorem CreateBlock_ok_shape (env : Env) (chain : EChain) (prev : Option EBlock)
    (capacity : Nat) (b : EBlock)
    (h : (CreateBlock env chain prev capacity).ret = Outcome.ok b) :
    (prev = none ↔ chain.NextBlockHeight = 0) ∧ capacity ≤ maxPointerSliceCap ∧
    b.IsSealed = false ∧ b.EBEntries = [] ∧ b.Chain = some chain ∧
    (∃ hdr, b.Header = some hdr ∧ hdr.ChainID = chain.ChainID ∧
      hdr.EBHeight = chain.NextBlockHeight) ∧
    b.MerkleRoot = none := by
  cases prev with
  | none =>
    by_cases hz : chain.NextBlockHeight = 0
    · rw [CreateBlock_origin env chain capacity hz] at h
      by_cases hcap : capacity ≤ maxPointerSliceCap
      · simp only [hcap, if_true, Outcome.ok.injEq] at h
        subst h
        simp [hz, hcap, EBlock.new]
      · simp [hcap] at h
    · simp [CreateBlock, hz] at h
  | some p =>
    by_cases hz : chain.NextBlockHeight = 0
    · simp [CreateBlock, hz] at h
    · have hnext := CreateBlock_next env chain p capacity hz
      rcases prev_built_cases env p with ⟨q, hq⟩ | hpanic
      · rw [(hnext.1 q hq).2] at h
        by_cases hcap : capacity ≤ maxPointerSliceCap
        · simp only [hcap, if_true, Outcome.ok.injEq] at h
          subst h
          simp [hz, hcap, EBlock.new]
        · simp [hcap] at h
      · rw [hnext.2 hpanic] at h
        cases h

/-- Counterexample to C1: on a fresh chain with no previous block, a case that passes
the linkage test, `CreateBlock` with capacity `2 ^ 64 - 1` panics in `make` and
returns neither a block nor an error. -/
theorem CreateBlock_capacity_panics :
    sampleChain.NextBlockHeight = 0 ∧
    (CreateBlock sampleEnv sampleChain none (2 ^ 64 - 1)).ret = Outcome.panic ∧
    ¬ ∃ b, (CreateBlock sampleEnv sampleChain none (2 ^ 64 - 1)).ret = Outcome.ok b := by
  have h : (CreateBlock sampleEnv sampleChain none (2 ^ 64 - 1)).ret = Outcome.panic := by
    rw [CreateBlock_origin sampleEnv sampleChain _ rfl, if_neg (by decide)]
  exact ⟨rfl, h, fun ⟨b, hb⟩ => by rw [h] at hb; cases hb⟩

/-- C1, as amended: `CreateBlock` returns an error, and no block, exactly when one and
only one of "prev is nil" and "chain.NextBlockHeight == 0" holds. In the two remaining
cases it returns a block with a nil error when the capacity is in the range `make`
accepts and prev, if its Merkle root is still to be built, has a header (the tree
store of the package being never empty); it panics when the capacity is out of range,
and when prev has neither a Merkle root nor a header. -/
theorem CreateBlock_error_iff (env : Env) (chain : EChain) (prev : Option EBlock)
    (capacity : Nat) :
    ((∃ msg, (CreateBlock env chain prev capacity).ret = Outcome.error msg) ↔
      ¬ (prev = none ↔ chain.NextBlockHeight = 0)) ∧
    ((∀ l, env.BuildMerkleTreeStore l ≠ []) → capacity ≤ maxPointerSliceCap →
      (∀ p, prev = some p → p.MerkleRoot = none → p.Header ≠ none) →
      ((∃ b, (CreateBlock env chain prev capacity).ret = Outcome.ok b) ↔
        (prev = none ↔ chain.NextBlockHeight = 0))) ∧
    ((prev = none ↔ chain.NextBlockHeight = 0) → maxPointerSliceCap < capacity →
      (CreateBlock env chain prev capacity).ret = Outcome.panic) ∧
    (∀ p, prev = some p → chain.NextBlockHeight ≠ 0 → p.MerkleRoot = none →
      p.Header = none → (CreateBlock env chain prev capacity).ret = Outcome.panic) := by
  refine ⟨CreateBlock_error_iff_linkage env chain prev capacity, ?_, ?_, ?_⟩
  · intro hstore hcap hhdr
    refine ⟨fun ⟨b, hb⟩ => (CreateBlock_ok_shape env chain prev capacity b hb).1, ?_⟩
    intro hlink
    cases prev with
    | none =>
      rw [CreateBlock_origin env chain capacity (hlink.mp rfl), if_pos hcap]
      exact ⟨_, rfl⟩
    | some p =>
      have hz : chain.NextBlockHeight ≠ 0 := fun h0 => by simpa using hlink.mpr h0
      have hnext := CreateBlock_next env chain p capacity hz
      have hbuilt : ∃ q, (if p.MerkleRoot = none then p.BuildMerkleRoot env else Outcome.ok p)
          = Outcome.ok q := by
        by_cases hm : p.MerkleRoot = none
        · simp only [hm, if_true]
          exact BuildMerkleRoot_ok env hstore p (hhdr p rfl hm)
        · simp only [hm, if_false]
          exact ⟨p, rfl⟩
      obtain ⟨q, hq⟩ := hbuilt
      rw [(hnext.1 q hq).2, if_pos hcap]
      exact ⟨_, rfl⟩
  · intro hlink hcap
    have hncap : ¬ capacity ≤ maxPointerSliceCap := Nat.not_le.mpr hcap
    cases prev with
    | none =>
      rw [CreateBlock_origin env chain capacity (hlink.mp rfl), if_neg hncap]
    | some p =>
      have hz : chain.NextBlockHeight ≠ 0 := fun h0 => by simpa using hlink.mpr h0
      have hnext := CreateBlock_next env chain p capacity hz
      rcases prev_built_cases env p with ⟨q, hq⟩ | hpanic
      · rw [(hnext.1 q hq).2, if_neg hncap]
      · exact hnext.2 hpanic
  · intro p hp hz hm hhdr
    cases hp
    refine (CreateBlock_next env chain p capacity hz).2 ?_
    simp only [hm, if_true]
    exact BuildMerkleRoot_nil_header env p hhdr

/-- Witness of C1 as amended: on the sample environment, a chain at height 1 and a
previous block with a header and without Merkle root: no error, and a block is
returned. -/
theorem CreateBlock_error_iff_witness :
    (∀ l, sampleEnv.BuildMerkleTreeStore l ≠ []) ∧ (4 : Nat) ≤ maxPointerSliceCap ∧
    samplePrev.Header ≠ none ∧
    (¬ ∃ msg, (CreateBlock sampleEnv sampleChain1 (some samplePrev) 4).ret
        = Outcome.error msg) ∧
    ∃ b, (CreateBlock sampleEnv sampleChain1 (some samplePrev) 4).ret = Outcome.ok b :=
  ⟨sampleEnv_store_ne_nil, by decide, by decide,
    fun h => (CreateBlock_error_iff sampleEnv sampleChain1 (some samplePrev) 4).1.mp h
      (by decide),
    ((CreateBlock_error_iff sampleEnv sampleChain1 (some samplePrev) 4).2.1
      sampleEnv_store_ne_nil (by decide)
      (fun p hp _ => by cases hp; decide)).mpr (by decide)⟩

/-- C2: a block returned by a successful `CreateBlock` is unsealed, has an empty body,
carries the chain id of the chain and has the chain's current height as its sequence
number. -/
theorem CreateBlock_fresh_block (env : Env) (chain : EChain) (prev : Option EBlock)
    (capacity : Nat) (b : EBlock)
    (h : (CreateBlock env chain prev capacity).ret = Outcome.ok b) :
    b.IsSealed = false ∧ b.EBEntries.length = 0 ∧
    ∃ hdr, b.Header = some hdr ∧
      hdr.ChainID = chain.ChainID ∧ hdr.EBHeight = chain.NextBlockHeight := by
  obtain ⟨_, _, h1, h2, _, h3, _⟩ := CreateBlock_ok_shape env chain prev capacity b h
  exact ⟨h1, by simp [h2], h3⟩

/-- Witness of C2: the origin block of the sample chain. -/
theorem CreateBlock_fresh_block_witness :
    (CreateBlock sampleEnv sampleChain none 4).ret = Outcome.ok sampleOrigin ∧
    (sampleOrigin.IsSealed = false ∧ sampleOrigin.EBEntries.length = 0 ∧
      ∃ hdr, sampleOrigin.Header = some hdr ∧
        hdr.ChainID = sampleChain.ChainID ∧ hdr.EBHeight = sampleChain.NextBlockHeight) :=
  ⟨by decide, CreateBlock_fresh_block sampleEnv sampleChain none 4 sampleOrigin (by decide)⟩

/-- C3: in the block a successful `CreateBlock` returns, both `Header.PrevHash` and
`Header.PrevKeyMR` are the zero hash of `NewHash()` when prev is nil; when prev is a
block, `Header.PrevHash` is `prev.EBHash` and `Header.PrevKeyMR` is the key Merkle root
of prev: `prev.MerkleRoot` when it is set (prev is then left as it was), and otherwise
the root `prev.BuildMerkleRoot()` computes, which the call stores into
`prev.MerkleRoot`. -/
theorem CreateBlock_prev_links (env : Env) (chain : EChain) (prev : Option EBlock)
    (capacity : Nat) (b : EBlock)
    (h : (CreateBlock env chain prev capacity).ret = Outcome.ok b) :
    (prev = none →
      ∃ hdr, b.Header = some hdr ∧ hdr.PrevHash = NewHash ∧ hdr.PrevKeyMR = NewHash) ∧
    (∀ p, prev = some p →
      ∃ hdr, b.Header = some hdr ∧
        hdr.PrevHash = p.EBHash ∧
        (p.MerkleRoot ≠ none →
          hdr.PrevKeyMR = p.MerkleRoot ∧
          (CreateBlock env chain prev capacity).prev = some p) ∧
        (p.MerkleRoot = none →
          ∃ q, p.BuildMerkleRoot env = Outcome.ok q ∧
            (CreateBlock env chain prev capacity).prev = some q ∧
            hdr.PrevKeyMR = q.MerkleRoot)) := by
  have hcap := (CreateBlock_ok_shape env chain prev capacity b h).2.1
  cases prev with
  | none =>
    by_cases hz : chain.NextBlockHeight = 0
    · rw [CreateBlock_origin env chain capacity hz, if_pos hcap, Outcome.ok.injEq] at h
      subst h
      simp
    · simp [CreateBlock, hz] at h
  | some p =>
    by_cases hz : chain.NextBlockHeight = 0
    · simp [CreateBlock, hz] at h
    · refine ⟨by simp, ?_⟩
      intro p0 hp0
      cases hp0
      have hnext := CreateBlock_next env chain p capacity hz
      rcases prev_built_cases env p with ⟨q, hq⟩ | hpanic
      · obtain ⟨hprev, hret⟩ := hnext.1 q hq
        rw [hret, if_pos hcap, Outcome.ok.injEq] at h
        subst h
        refine ⟨_, rfl, rfl, ?_, ?_⟩
        · intro hm
          simp only [hm, if_false, Outcome.ok.injEq] at hq
          subst hq
          exact ⟨rfl, hprev⟩
        · intro hm
          simp only [hm, if_true] at hq
          exact ⟨q, hq, hprev, rfl⟩
      · rw [hnext.2 hpanic] at h
        cases h

/-- Witness of C3: the second block of the sample chain, whose previous block has no
Merkle root yet. -/
theorem CreateBlock_prev_links_witness :
    (CreateBlock sampleEnv sampleChain1 (some samplePrev) 4).ret = Outcome.ok sampleSecond ∧
    ∃ hdr, sampleSecond.Header = some hdr ∧
      hdr.PrevHash = samplePrev.EBHash ∧
      (samplePrev.MerkleRoot ≠ none →
        hdr.PrevKeyMR = samplePrev.MerkleRoot ∧
        (CreateBlock sampleEnv sampleChain1 (some samplePrev) 4).prev = some samplePrev) ∧
      (samplePrev.MerkleRoot = none →
        ∃ q, samplePrev.BuildMerkleRoot sampleEnv = Outcome.ok q ∧
          (CreateBlock sampleEnv sampleChain1 (some samplePrev) 4).prev = some q ∧
          hdr.PrevKeyMR = q.MerkleRoot) :=
  ⟨by decide,
    (CreateBlock_prev_links sampleEnv sampleChain1 (some samplePrev) 4 sampleSecond
      (by decide)).2 samplePrev rfl⟩

/-- The chain after `CreateBlock` is the chain before. -/
theorem CreateBlock_chain_unchanged_aux (env : Env) (chain : EChain) (prev : Option EBlock)
    (capacity : Nat) : (CreateBlock env chain prev capacity).chain = chain := by
  unfold CreateBlock
  cases prev with
  | none =>
    simp only
    split
    · rfl
    · split <;> rfl
  | some p =>
    simp only
    split
    · rfl
    · split
      · rfl
      · split <;> rfl
      · split <;> rfl

/-- C4: `CreateBlock` leaves the chain as it was, whether it returns a block, returns
an error or panics: `NextBlockHeight`, `ChainID` and `FirstEntry` are unchanged. -/
theorem CreateBlock_chain_unchanged (env : Env) (chain : EChain) (prev : Option EBlock)
    (capacity : Nat) :
    (CreateBlock env chain prev capacity).chain.NextBlockHeight = chain.NextBlockHeight ∧
    (CreateBlock env chain prev capacity).chain.ChainID = chain.ChainID ∧
    (CreateBlock env chain prev capacity).chain.FirstEntry = chain.FirstEntry := by
  have key := CreateBlock_chain_unchanged_aux env chain prev capacity
  simp [key]

/-- When the linkage test passes, the capacity is in range and the previous block has
a header, `CreateBlock` returns a block with a header numbered with the chain's
height, and leaves the chain as it was. -/
theorem CreateBlock_ok_of_linkage (env : Env) (hstore : ∀ l, env.BuildMerkleTreeStore l ≠ [])
    (chain : EChain) (prev : Option EBlock) (capacity : Nat)
    (hlink : prev = none ↔ chain.NextBlockHeight = 0)
    (hcap : capacity ≤ maxPointerSliceCap)
    (hhdr : ∀ p, prev = some p → p.Header ≠ none) :
    ∃ b, (CreateBlock env chain prev capacity).ret = Outcome.ok b ∧
      (CreateBlock env chain prev capacity).chain = chain ∧
      ∃ hdr, b.Header = some hdr ∧ hdr.EBHeight = chain.NextBlockHeight := by
  have hchain := CreateBlock_chain_unchanged_aux env chain prev capacity
  cases prev with
  | none =>
    rw [CreateBlock_origin env chain capacity (hlink.mp rfl), if_pos hcap]
    exact ⟨_, rfl, hchain, _, rfl, rfl⟩
  | some p =>
    have hz : chain.NextBlockHeight ≠ 0 := fun h0 => by simpa using hlink.mpr h0
    have hnext := CreateBlock_next env chain p capacity hz
    have hbuilt : ∃ q, (if p.MerkleRoot = none then p.BuildMerkleRoot env else Outcome.ok p)
        = Outcome.ok q := by
      by_cases hm : p.MerkleRoot = none
      · simp only [hm, if_true]
        exact BuildMerkleRoot_ok env hstore p (hhdr p rfl)
      · simp only [hm, if_false]
        exact ⟨p, rfl⟩
    obtain ⟨q, hq⟩ := hbuilt
    rw [(hnext.1 q hq).2, if_pos hcap]
    exact ⟨_, rfl, hchain, _, rfl, rfl⟩

/-- Heights handed out by the caller loop from a chain at height `k`, as long as the
`uint32` height does not wrap before the last creation, every capacity is in range
and the previous block has a header. -/
theorem createSequence_from (env : Env) (hstore : ∀ l, env.BuildMerkleTreeStore l ≠ []) :
    ∀ (capacities : List Nat) (chain : EChain) (prev : Option EBlock),
      (prev = none ↔ chain.NextBlockHeight = 0) →
      (∀ p, prev = some p → p.Header ≠ none) →
      (∀ c ∈ capacities, c ≤ maxPointerSliceCap) →
      chain.NextBlockHeight + capacities.length ≤ 2 ^ 32 →
      ∃ blocks : List EBlock,
        createSequence env chain prev capacities = blocks.map Outcome.ok ∧
        blocks.map (fun b => b.Header.map (fun hdr => hdr.EBHeight))
          = (List.range' chain.NextBlockHeight capacities.length).map some := by
  intro capacities
  induction capacities with
  | nil =>
    intro chain prev _ _ _ _
    exact ⟨[], by simp [createSequence], by simp⟩
  | cons capacity rest ih =>
    intro chain prev hlink hhdr hcaps hlen
    obtain ⟨b, hb, hc, hdr, hbh, hh⟩ :=
      CreateBlock_ok_of_linkage env hstore chain prev capacity hlink
        (hcaps capacity (List.mem_cons_self _ _)) hhdr
    cases rest with
    | nil =>
      refine ⟨[b], ?_, ?_⟩
      · simp [createSequence, hb]
      · simp [hbh, hh, List.range']
    | cons c2 rest2 =>
      have hlt : chain.NextBlockHeight + 1 < 2 ^ 32 := by
        simp only [List.length_cons] at hlen
        omega
      have hmod : (chain.NextBlockHeight + 1) % 2 ^ 32 = chain.NextBlockHeight + 1 :=
        Nat.mod_eq_of_lt hlt
      obtain ⟨blocks, hseq, hhs⟩ :=
        ih { chain with NextBlockHeight := (chain.NextBlockHeight + 1) % 2 ^ 32 } (some b)
          (by simp only [hmod]; simp)
          (fun p hp => by cases hp; rw [hbh]; simp)
          (fun c hcm => hcaps c (List.mem_cons_of_mem _ hcm))
          (by simp only [hmod, List.length_cons] at hlen ⊢; omega)
      refine ⟨b :: blocks, ?_, ?_⟩
      · rw [createSequence]
        simp only [hb, hc]
        rw [hseq]
        rfl
      · simp only [List.map_cons, hbh, Option.map_some', hh, hhs, hmod]
        rfl

/-- Counterexample to C5: with N = 1 and the capacity `2 ^ 64 - 1`, the only call, made
on a chain at height 0 with no previous block, panics in `make` and creates no
block. -/
theorem createSequence_capacity_panics :
    sampleChain.NextBlockHeight = 0 ∧
    createSequence sampleEnv sampleChain none [2 ^ 64 - 1] = [Outcome.panic] := by
  have h : (CreateBlock sampleEnv sampleChain none (2 ^ 64 - 1)).ret = Outcome.panic := by
    rw [CreateBlock_origin sampleEnv sampleChain _ rfl, if_neg (by decide)]
  refine ⟨rfl, ?_⟩
  rw [createSequence]
  simp only [h]
  rfl

/-- C5, as amended: on a chain that starts at height 0, creating N ≥ 1 blocks in order,
each with a capacity in the range `make` accepts, the first with no previous block and
each later one with the block created just before, the caller advancing
`chain.NextBlockHeight` by one after each creation, every call returns a block and the
sequence numbers `Header.EBHeight` are 0, 1, ..., N-1 in that order. N ≤ 2^32 is the
range in which a `uint32` height advances by exactly one between consecutive
creations. -/
theorem createSequence_heights (env : Env) (hstore : ∀ l, env.BuildMerkleTreeStore l ≠ [])
    (chain : EChain) (capacities : List Nat)
    (h0 : chain.NextBlockHeight = 0)
    (hN : 1 ≤ capacities.length) (hmax : capacities.length ≤ 2 ^ 32)
    (hcaps : ∀ c ∈ capacities, c ≤ maxPointerSliceCap) :
    ∃ blocks : List EBlock,
      createSequence env chain none capacities = blocks.map Outcome.ok ∧
      blocks.length = capacities.length ∧
      blocks.map (fun b => b.Header.map (fun hdr => hdr.EBHeight))
        = (List.range capacities.length).map some := by
  obtain ⟨blocks, hseq, hhs⟩ :=
    createSequence_from env hstore capacities chain none (by simp [h0])
      (fun p hp => by cases hp) hcaps (by omega)
  refine ⟨blocks, hseq, ?_, ?_⟩
  · have := congrArg List.length hhs
    simpa using this
  · rw [hhs, h0, List.range_eq_range']

/-- Witness of C5 as amended: three blocks created in order on the sample chain. -/
theorem createSequence_heights_witness :
    (∀ l, sampleEnv.BuildMerkleTreeStore l ≠ []) ∧ sampleChain.NextBlockHeight = 0 ∧
    1 ≤ [4, 4, 4].length ∧ [4, 4, 4].length ≤ 2 ^ 32 ∧
    (∀ c ∈ [4, 4, 4], c ≤ maxPointerSliceCap) ∧
    ∃ blocks : List EBlock,
      createSequence sampleEnv sampleChain none [4, 4, 4] = blocks.map Outcome.ok ∧
      blocks.length = [4, 4, 4].length ∧
      blocks.map (fun b => b.Header.map (fun hdr => hdr.EBHeight))
        = (List.range [4, 4, 4].length).map some :=
  ⟨sampleEnv_store_ne_nil, rfl, by decide, by norm_num, by decide,
    createSequence_heights sampleEnv sampleEnv_store_ne_nil sampleChain [4, 4, 4] rfl
      (by decide) (by norm_num) (by decide)⟩

/-! ## Theorems: end-of-minute markers -/

/-- C10: `AddEndOfMinuteMarker(eomType)` returns a nil error and leaves the body equal
to the old body followed by one new entry, whose hash is the 32-byte value with bytes
0..30 equal to zero and byte 31 equal to `eomType`; the earlier entries keep their
value and position. -/
theorem AddEndOfMinuteMarker_appends (b : EBlock) (eomType : Nat) (hbyte : eomType < 256) :
    (b.AddEndOfMinuteMarker eomType).2 = none ∧
    (b.AddEndOfMinuteMarker eomType).1.EBEntries
      = b.EBEntries ++ [{ EntryHash := some (List.replicate 31 0 ++ [eomType]) }] ∧
    (List.replicate 31 0 ++ [eomType]).length = 32 ∧
    (∀ i, i < 31 → (List.replicate 31 0 ++ [eomType])[i]? = some 0) ∧
    (List.replicate 31 0 ++ [eomType])[31]? = some eomType ∧
    (∀ i, i < b.EBEntries.length →
      (b.AddEndOfMinuteMarker eomType).1.EBEntries[i]? = b.EBEntries[i]?) := by
  have hbytes : (List.replicate 32 0).set 31 (eomType % 256)
      = List.replicate 31 0 ++ [eomType] := by
    rw [Nat.mod_eq_of_lt hbyte]
    rfl
  have hbody : (b.AddEndOfMinuteMarker eomType).1.EBEntries
      = b.EBEntries ++ [{ EntryHash := some (List.replicate 31 0 ++ [eomType]) }] := by
    simp only [EBlock.AddEndOfMinuteMarker, hbytes, NewShaHash, NewEBEntry]
    simp [HASH_LENGTH]
  refine ⟨rfl, hbody, by simp, ?_, ?_, ?_⟩
  · intro i hi
    rw [List.getElem?_append_left (by simpa using hi), List.getElem?_replicate]
    simp only [hi, if_true]
  · rw [List.getElem?_append_right (by simp)]
    simp
  · intro i hi
    rw [hbody, List.getElem?_append_left hi]

/-- Witness of C10: the marker of type 3 appended to the sample origin block. -/
theorem AddEndOfMinuteMarker_appends_witness :
    (3 : Nat) < 256 ∧
    (sampleOrigin.AddEndOfMinuteMarker 3).2 = none ∧
    (sampleOrigin.AddEndOfMinuteMarker 3).1.EBEntries
      = sampleOrigin.EBEntries ++ [{ EntryHash := some (List.replicate 31 0 ++ [3]) }] :=
  ⟨by decide, (AddEndOfMinuteMarker_appends sampleOrigin 3 (by decide)).1,
    (AddEndOfMinuteMarker_appends sampleOrigin 3 (by decide)).2.1⟩

/-! ## Theorems: the flat codec of lines 56-92 -/

@[simp] theorem beBytes_length (w n : Nat) : (beBytes w n).length = w := by
  induction w generalizing n with
  | zero => rfl
  | succ w ih => simp [beBytes, ih]

@[simp] theorem Outcome.ok_bind {α β : Type} (a : α) (f : α → Outcome β) :
    (Outcome.ok a >>= f) = f a := rfl

@[simp] theorem Outcome.error_bind {α β : Type} (msg : String) (f : α → Outcome β) :
    (Outcome.error msg >>= f) = Outcome.error msg := rfl

@[simp] theorem Outcome.panic_bind {α β : Type} (f : α → Outcome β) :
    (Outcome.panic >>= f) = Outcome.panic := rfl

@[simp] theorem Outcome.pure_eq {α : Type} (a : α) : (pure a : Outcome α) = Outcome.ok a := rfl

/-- When the loop bound stops at the end of the body and no entry is nil, the entry
loop of the flat `MarshalBinary` writes the remaining entries in body order. -/
theorem writeEntriesFlat_all (entries : List EBEntry)
    (hent : ∀ e ∈ entries, ∃ h, e.EntryHash = some h) :
    ∀ n i, i + n = entries.length →
      EBlock.writeEntriesFlat entries i n
        = Outcome.ok (((entries.drop i).map (fun e => e.EntryHash.getD [])).flatten) := by
  intro n
  induction n with
  | zero =>
    intro i hi
    have : entries.drop i = [] := List.drop_eq_nil_of_le (by omega)
    simp [EBlock.writeEntriesFlat, this]
  | succ n ih =>
    intro i hi
    have hlt : i < entries.length := by omega
    have hdrop : entries.drop i = entries[i] :: entries.drop (i + 1) :=
      List.drop_eq_getElem_cons hlt
    obtain ⟨h, hh⟩ := hent entries[i] (List.getElem_mem hlt)
    rw [EBlock.writeEntriesFlat, List.getElem?_eq_getElem hlt]
    simp only [hh, derefHash, Outcome.ok_bind, ih (i + 1) (by omega), Outcome.pure_eq, hdrop,
      List.map_cons, List.flatten_cons, Option.getD_some]

/-- Total length of a body whose entries all hold 32-byte hashes. -/
theorem entries_flatten_length (entries : List EBEntry)
    (hent : ∀ e ∈ entries, ∃ h, e.EntryHash = some h ∧ h.length = 32) :
    ((entries.map (fun e => e.EntryHash.getD [])).flatten).length = entries.length * 32 := by
  induction entries with
  | nil => rfl
  | cons e rest ih =>
    obtain ⟨h, hh, hl⟩ := hent e (List.mem_cons_self _ _)
    have := ih (fun e he => hent e (List.mem_cons_of_mem _ he))
    simp only [List.map_cons, List.flatten_cons, List.length_append, hh, Option.getD_some, hl,
      this, List.length_cons]
    ring

/-- C8: what the `MarshalBinary` of lines 74-92 writes for a block whose hashes are 32
bytes long and whose `EntryCount` is the length of its body: the four hashes
`ChainID`, `BodyMR`, `PrevKeyMR`, `PrevHash`, then big-endian `EBHeight`, `DBHeight`,
the `StartTime` field and `EntryCount`, then the entries in body order. Its length is
`headersize() + bodysize()` plus the width of `StartTime`, so it exceeds the declared
140-byte header layout by the bytes of the `StartTime` field. -/
theorem MarshalBinaryFlat_layout (b : EBlock) (c m k p : Hash)
    (hc : b.ChainID = some c) (hm : b.BodyMR = some m) (hk : b.PrevKeyMR = some k)
    (hp : b.PrevHash = some p)
    (hlen : c.length = 32 ∧ m.length = 32 ∧ k.length = 32 ∧ p.length = 32)
    (hcount : b.EntryCount = b.EBEntries.length)
    (hent : ∀ e ∈ b.EBEntries, ∃ h, e.EntryHash = some h ∧ h.length = 32) :
    ∃ data, b.MarshalBinaryFlat = Outcome.ok data ∧
      data = c ++ m ++ k ++ p ++ beBytes 4 b.EBHeight ++ beBytes 4 b.DBHeight ++ b.StartTime
        ++ beBytes 4 b.EntryCount ++ ((b.EBEntries.map (fun e => e.EntryHash.getD [])).flatten) ∧
      data.length = b.headersize + b.bodysize + b.StartTime.length := by
  have hall := writeEntriesFlat_all b.EBEntries
    (fun e he => (hent e he).imp (fun _ h => h.1)) b.EntryCount 0 (by omega)
  refine ⟨_, ?_, rfl, ?_⟩
  · simp only [EBlock.MarshalBinaryFlat, hc, hm, hk, hp, derefHash, Outcome.ok_bind, hall,
      Outcome.pure_eq, List.drop_zero]
  · simp only [List.length_append, beBytes_length, entries_flatten_length b.EBEntries hent,
      hlen.1, hlen.2.1, hlen.2.2.1, hlen.2.2.2, EBlock.headersize, EBlock.bodysize, HASH_LENGTH]
    omega

/-- Witness of C8: the sample block with one entry and an 8-byte `StartTime` is written
on 180 bytes, whereas `headersize() + bodysize()` is 172. -/
theorem MarshalBinaryFlat_layout_witness :
    sampleFlat.EntryCount = sampleFlat.EBEntries.length ∧
    sampleFlat.PrevHash3 = sampleFlat.PrevHash ∧ sampleFlat.EBSequence = sampleFlat.EBHeight ∧
    sampleFlat.headersize + sampleFlat.bodysize = 172 ∧ sampleFlat.StartTime.length = 8 ∧
    ∃ data, sampleFlat.MarshalBinaryFlat = Outcome.ok data ∧
      data = List.replicate 32 170 ++ List.replicate 32 187 ++ List.replicate 32 204
        ++ List.replicate 32 221 ++ beBytes 4 sampleFlat.EBHeight
        ++ beBytes 4 sampleFlat.DBHeight ++ sampleFlat.StartTime
        ++ beBytes 4 sampleFlat.EntryCount
        ++ ((sampleFlat.EBEntries.map (fun e => e.EntryHash.getD [])).flatten) ∧
      data.length = sampleFlat.headersize + sampleFlat.bodysize + sampleFlat.StartTime.length :=
  ⟨rfl, rfl, rfl, rfl, rfl,
    MarshalBinaryFlat_layout sampleFlat (List.replicate 32 170) (List.replicate 32 187)
      (List.replicate 32 204) (List.replicate 32 221) rfl rfl rfl rfl
      ⟨by simp, by simp, by simp, by simp⟩ rfl
      (by
        intro e he
        have : e = { EntryHash := some (List.replicate 32 1) } := by
          simpa [sampleFlat] using he
        exact ⟨List.replicate 32 1, by rw [this], by simp⟩)⟩

/-- The `UnmarshalBinary` of lines 56-72 never returns an error: the errors of
`UnmarshalHash` are overwritten and the function ends with `return nil`. -/
theorem UnmarshalBinaryFlat_ne_error (env : Env) (e : EBlock) (data : List Nat) (msg : String) :
    e.UnmarshalBinaryFlat env data ≠ Outcome.error msg := by
  unfold EBlock.UnmarshalBinaryFlat
  simp only [readBE, makeSlice]
  split <;> simp
  split <;> simp
  split <;> simp
  split <;> simp

/-! ## Theorems: the codec of lines 187-247 -/

/-- An error of the entry loop is the error an entry decoder returned on some suffix
of the data. -/
theorem unmarshalEntries_error (env : Env) (msg : String) :
    ∀ (n : Nat) (data : List Nat),
      EBlock.unmarshalEntries env n data = Outcome.error msg →
      ∃ d, d <:+ data ∧ (env.EBEntryUnmarshalBinary d).2 = some msg := by
  intro n
  induction n with
  | zero => intro data h; simp [EBlock.unmarshalEntries] at h
  | succ n ih =>
    intro data h
    rw [EBlock.unmarshalEntries] at h
    rcases hd : env.EBEntryUnmarshalBinary data with ⟨entry, err⟩
    cases err with
    | some e =>
      simp only [hd, Outcome.error.injEq] at h
      exact ⟨data, List.suffix_refl _, by rw [hd, h]⟩
    | none =>
      simp only [hd] at h
      unfold sliceFrom at h
      by_cases hsz : env.EBEntryMarshalledSize entry ≤ data.length
      · simp only [hsz, if_true, Outcome.ok_bind] at h
        cases hr : EBlock.unmarshalEntries env n (data.drop (env.EBEntryMarshalledSize entry)) with
        | ok es => simp [hr] at h
        | error m2 =>
          simp only [hr, Outcome.error_bind, Outcome.error.injEq] at h
          obtain ⟨d, hsuf, hdec⟩ := ih _ (h ▸ hr)
          exact ⟨d, hsuf.trans (List.drop_suffix _ _), hdec⟩
        | panic => simp [hr] at h
      · simp [hsz] at h

/-- The entry loop returns as many entries as it was asked for. -/
theorem unmarshalEntries_length (env : Env) :
    ∀ (n : Nat) (data : List Nat) (es : List EBEntry),
      EBlock.unmarshalEntries env n data = Outcome.ok es → es.length = n := by
  intro n
  induction n with
  | zero =>
    intro data es h
    simp only [EBlock.unmarshalEntries, Outcome.ok.injEq] at h
    rw [← h]
    rfl
  | succ n ih =>
    intro data es h
    rw [EBlock.unmarshalEntries] at h
    rcases hd : env.EBEntryUnmarshalBinary data with ⟨entry, err⟩
    cases err with
    | some e => simp [hd] at h
    | none =>
      simp only [hd] at h
      unfold sliceFrom at h
      by_cases hsz : env.EBEntryMarshalledSize entry ≤ data.length
      · simp only [hsz, if_true, Outcome.ok_bind] at h
        cases hr : EBlock.unmarshalEntries env n (data.drop (env.EBEntryMarshalledSize entry)) with
        | ok rest =>
          simp only [hr, Outcome.ok_bind, Outcome.pure_eq, Outcome.ok.injEq] at h
          rw [← h, List.length_cons, ih _ _ hr]
        | error m2 => simp [hr] at h
        | panic => simp [hr] at h
      · simp [hsz] at h

/-- The `UnmarshalBinary` of lines 227-247 in one step: out of range when the header
and the count do not fit, a panic of `make` when the count is out of range, and
otherwise the entry loop on the bytes after the count. -/
theorem UnmarshalBinary_eq (env : Env) (b : EBlock) (data : List Nat) :
    b.UnmarshalBinary env data =
      if env.HeaderMarshalledSize EBlockHeader.new + 8 ≤ data.length then
        if beValue ((data.drop (env.HeaderMarshalledSize EBlockHeader.new)).take 8)
            ≤ maxPointerSliceCap then
          (EBlock.unmarshalEntries env
              (beValue ((data.drop (env.HeaderMarshalledSize EBlockHeader.new)).take 8))
              (data.drop (env.HeaderMarshalledSize EBlockHeader.new + 8))).bind
            (fun entries =>
              Outcome.ok { b with Header := some EBlockHeader.new, EBEntries := entries })
        else Outcome.panic
      else Outcome.panic := by
  unfold EBlock.UnmarshalBinary
  simp only [EBlockHeader.UnmarshalBinary, sliceFrom, readBE, makeSlice]
  by_cases hhs : env.HeaderMarshalledSize EBlockHeader.new ≤ data.length
  · by_cases h8 : 8 ≤ (data.drop (env.HeaderMarshalledSize EBlockHeader.new)).length
    · have hfit : env.HeaderMarshalledSize EBlockHeader.new + 8 ≤ data.length := by
        rw [List.length_drop] at h8
        omega
      by_cases hcount :
          beValue ((data.drop (env.HeaderMarshalledSize EBlockHeader.new)).take 8)
            ≤ maxPointerSliceCap
      · simp only [hhs, h8, hfit, hcount, le_refl, and_self, if_true, Outcome.ok_bind,
          List.drop_drop]
        rfl
      · simp only [hhs, h8, hfit, hcount, and_false, if_true, if_false, Outcome.ok_bind,
          Outcome.panic_bind]
    · have hfit : ¬ env.HeaderMarshalledSize EBlockHeader.new + 8 ≤ data.length := by
        rw [List.length_drop] at h8
        omega
      simp only [hhs, h8, hfit, if_true, if_false, Outcome.ok_bind, Outcome.panic_bind]
  · have hfit : ¬ env.HeaderMarshalledSize EBlockHeader.new + 8 ≤ data.length := by omega
    simp only [hhs, hfit, if_false, Outcome.panic_bind]

/-- A returning `UnmarshalBinary` found the header and the count in the data, a count
in the range of `make`, and decoded that many entries into the receiver, whose header
it set to `new(EBlockHeader)`. -/
theorem UnmarshalBinary_ok (env : Env) (b decoded : EBlock) (data : List Nat)
    (h : b.UnmarshalBinary env data = Outcome.ok decoded) :
    env.HeaderMarshalledSize EBlockHeader.new + 8 ≤ data.length ∧
    beValue ((data.drop (env.HeaderMarshalledSize EBlockHeader.new)).take 8)
      ≤ maxPointerSliceCap ∧
    decoded.Header = some EBlockHeader.new ∧
    decoded.EBEntries.length
      = beValue ((data.drop (env.HeaderMarshalledSize EBlockHeader.new)).take 8) := by
  rw [UnmarshalBinary_eq] at h
  by_cases hfit : env.HeaderMarshalledSize EBlockHeader.new + 8 ≤ data.length
  · rw [if_pos hfit] at h
    by_cases hcount :
        beValue ((data.drop (env.HeaderMarshalledSize EBlockHeader.new)).take 8)
          ≤ maxPointerSliceCap
    · rw [if_pos hcount] at h
      cases hr : EBlock.unmarshalEntries env
          (beValue ((data.drop (env.HeaderMarshalledSize EBlockHeader.new)).take 8))
          (data.drop (env.HeaderMarshalledSize EBlockHeader.new + 8)) with
      | ok es =>
        simp only [hr, Outcome.bind, Outcome.ok.injEq] at h
        rw [← h]
        exact ⟨hfit, hcount, rfl, unmarshalEntries_length env _ _ es hr⟩
      | error m2 => simp [hr, Outcome.bind] at h
      | panic => simp [hr, Outcome.bind] at h
    · rw [if_neg hcount] at h
      cases h
  · rw [if_neg hfit] at h
    cases h

/-- C6: whenever the `UnmarshalBinary` of lines 227-247 returns nil on the bytes
`MarshalBinary` wrote for a block, the decoded header is the zero value
`new(EBlockHeader)`, because the header decoder of lines 95-99 reads nothing; the
header of the block is therefore lost unless it was the zero header. -/
theorem UnmarshalBinary_header_lost (env : Env) (b recv decoded : EBlock) (p : List Nat)
    (_hm : b.MarshalBinary env = Outcome.ok p)
    (hu : recv.UnmarshalBinary env p = Outcome.ok decoded) :
    decoded.Header = some EBlockHeader.new ∧
    (b.Header ≠ some EBlockHeader.new → decoded.Header ≠ b.Header) := by
  have hh : decoded.Header = some EBlockHeader.new := (UnmarshalBinary_ok env recv decoded p hu).2.2.1
  exact ⟨hh, fun hne => by rw [hh]; exact fun h => hne h.symm⟩

set_option maxRecDepth 16384

/-- Witness of C6: the sample block marshals, its bytes decode, the entries come back
and the header does not. -/
theorem UnmarshalBinary_header_lost_witness :
    sampleLinked.MarshalBinary sampleEnv = Outcome.ok sampleLinkedBytes ∧
    EBlock.new.UnmarshalBinary sampleEnv sampleLinkedBytes
      = Outcome.ok { EBlock.new with Header := some EBlockHeader.new,
                                     EBEntries := sampleLinked.EBEntries } ∧
    ({ EBlock.new with Header := some EBlockHeader.new,
                       EBEntries := sampleLinked.EBEntries } : EBlock).Header
      = some EBlockHeader.new ∧
    ({ EBlock.new with Header := some EBlockHeader.new,
                       EBEntries := sampleLinked.EBEntries } : EBlock).Header
      ≠ sampleLinked.Header :=
  ⟨by decide, by decide,
    (UnmarshalBinary_header_lost sampleEnv sampleLinked EBlock.new
      { EBlock.new with Header := some EBlockHeader.new, EBEntries := sampleLinked.EBEntries }
      sampleLinkedBytes (by decide) (by decide)).1,
    (UnmarshalBinary_header_lost sampleEnv sampleLinked EBlock.new
      { EBlock.new with Header := some EBlockHeader.new, EBEntries := sampleLinked.EBEntries }
      sampleLinkedBytes (by decide) (by decide)).2 (by decide)⟩

/-- C9, as amended: on every byte string shorter than the header size plus the 8 bytes
of the count, the `UnmarshalBinary` of lines 227-247 ends in an out-of-range slice
access and returns no error; when the header and the count are present and the count
is beyond the range of `make`, it panics in `make` before any entry is decoded; when
the count is in that range and not zero, it returns the error of the first entry's
decoder if that decoder fails, and ends in an out-of-range slice access if that
decoder accepts an entry larger than the bytes left; and it returns nil only when the
header and the count are present, the count is in range and as many entries as it
declares were decoded. -/
theorem UnmarshalBinary_errors (env : Env) (b : EBlock) (data : List Nat) :
    (data.length < env.HeaderMarshalledSize EBlockHeader.new + 8 →
      b.UnmarshalBinary env data = Outcome.panic) ∧
    (env.HeaderMarshalledSize EBlockHeader.new + 8 ≤ data.length →
      maxPointerSliceCap
        < beValue ((data.drop (env.HeaderMarshalledSize EBlockHeader.new)).take 8) →
      b.UnmarshalBinary env data = Outcome.panic) ∧
    (∀ msg, env.HeaderMarshalledSize EBlockHeader.new + 8 ≤ data.length →
      0 < beValue ((data.drop (env.HeaderMarshalledSize EBlockHeader.new)).take 8) →
      beValue ((data.drop (env.HeaderMarshalledSize EBlockHeader.new)).take 8)
        ≤ maxPointerSliceCap →
      (env.EBEntryUnmarshalBinary
        (data.drop (env.HeaderMarshalledSize EBlockHeader.new + 8))).2 = some msg →
      b.UnmarshalBinary env data = Outcome.error msg) ∧
    (env.HeaderMarshalledSize EBlockHeader.new + 8 ≤ data.length →
      0 < beValue ((data.drop (env.HeaderMarshalledSize EBlockHeader.new)).take 8) →
      beValue ((data.drop (env.HeaderMarshalledSize EBlockHeader.new)).take 8)
        ≤ maxPointerSliceCap →
      (env.EBEntryUnmarshalBinary
        (data.drop (env.HeaderMarshalledSize EBlockHeader.new + 8))).2 = none →
      (data.drop (env.HeaderMarshalledSize EBlockHeader.new + 8)).length
        < env.EBEntryMarshalledSize (env.EBEntryUnmarshalBinary
            (data.drop (env.HeaderMarshalledSize EBlockHeader.new + 8))).1 →
      b.UnmarshalBinary env data = Outcome.panic) ∧
    (∀ decoded, b.UnmarshalBinary env data = Outcome.ok decoded →
      env.HeaderMarshalledSize EBlockHeader.new + 8 ≤ data.length ∧
      beValue ((data.drop (env.HeaderMarshalledSize EBlockHeader.new)).take 8)
        ≤ maxPointerSliceCap ∧
      decoded.EBEntries.length
        = beValue ((data.drop (env.HeaderMarshalledSize EBlockHeader.new)).take 8)) := by
  refine ⟨?_, ?_, ?_, ?_, ?_⟩
  · intro hshort
    rw [UnmarshalBinary_eq, if_neg (by omega)]
  · intro hlen hbig
    rw [UnmarshalBinary_eq, if_pos hlen, if_neg (Nat.not_le.mpr hbig)]
  · intro msg hlen hcount hrange hdec
    rw [UnmarshalBinary_eq, if_pos hlen, if_pos hrange]
    obtain ⟨n, hn⟩ : ∃ n,
        beValue ((data.drop (env.HeaderMarshalledSize EBlockHeader.new)).take 8) = n + 1 :=
      ⟨_, (Nat.succ_pred_eq_of_pos hcount).symm⟩
    rw [hn, EBlock.unmarshalEntries]
    rcases hd : env.EBEntryUnmarshalBinary
        (data.drop (env.HeaderMarshalledSize EBlockHeader.new + 8)) with ⟨entry, err⟩
    rw [hd] at hdec
    simp only at hdec
    subst hdec
    rfl
  · intro hlen hcount hrange hdec hsize
    rw [UnmarshalBinary_eq, if_pos hlen, if_pos hrange]
    obtain ⟨n, hn⟩ : ∃ n,
        beValue ((data.drop (env.HeaderMarshalledSize EBlockHeader.new)).take 8) = n + 1 :=
      ⟨_, (Nat.succ_pred_eq_of_pos hcount).symm⟩
    rw [hn, EBlock.unmarshalEntries]
    rcases hd : env.EBEntryUnmarshalBinary
        (data.drop (env.HeaderMarshalledSize EBlockHeader.new + 8)) with ⟨entry, err⟩
    rw [hd] at hdec hsize
    simp only at hdec hsize
    subst hdec
    simp only [sliceFrom, if_neg (Nat.not_le.mpr hsize), Outcome.panic_bind]
    rfl
  · intro decoded h
    obtain ⟨h1, h2, _, h4⟩ := UnmarshalBinary_ok env b decoded data h
    exact ⟨h1, h2, h4⟩

/-- Counterexample to C9: the empty byte string is shorter than the header, and the
call ends in an out-of-range slice access instead of returning an error. -/
theorem UnmarshalBinary_empty_panics :
    EBlock.new.UnmarshalBinary sampleEnv [] = Outcome.panic ∧
    ¬ ∃ msg, EBlock.new.UnmarshalBinary sampleEnv [] = Outcome.error msg := by
  have h : EBlock.new.UnmarshalBinary sampleEnv [] = Outcome.panic := by decide
  exact ⟨h, fun ⟨msg, hm⟩ => by rw [h] at hm; cases hm⟩

/-- Witness of C9 as amended: on a byte string that stops inside its only declared
entry, the error of the entry decoder is returned; with a declared count of
`2 ^ 64 - 1`, the call panics. -/
theorem UnmarshalBinary_errors_witness :
    sampleEnv.HeaderMarshalledSize EBlockHeader.new + 8 ≤ sampleTruncated.length ∧
    EBlock.new.UnmarshalBinary sampleEnv sampleTruncated = Outcome.error "entry truncated" ∧
    EBlock.new.UnmarshalBinary sampleEnv sampleHugeCount = Outcome.panic :=
  ⟨by decide,
    (UnmarshalBinary_errors sampleEnv EBlock.new sampleTruncated).2.2.1 "entry truncated"
      (by decide) (by decide) (by decide) (by decide),
    (UnmarshalBinary_errors sampleEnv EBlock.new sampleHugeCount).2.1
      (by decide) (by decide)⟩

/-! ## Theorems: the entry-credit block codec -/

theorem beValue_append_singleton (xs : List Nat) (b : Nat) :
    beValue (xs ++ [b]) = beValue xs * 256 + b := by
  simp [beValue, List.foldl_append]

/-- Reading back a big-endian integer that fits its width. -/
theorem beValue_beBytes (w : Nat) : ∀ n, n < 256 ^ w → beValue (beBytes w n) = n := by
  induction w with
  | zero =>
    intro n hn
    simp at hn
    simp [beBytes, beValue, hn]
  | succ w ih =>
    intro n hn
    have hdiv : n / 256 < 256 ^ w := by
      rw [Nat.div_lt_iff_lt_mul (by norm_num)]
      rw [pow_succ] at hn
      exact hn
    rw [beBytes, beValue_append_singleton, ih _ hdiv]
    exact Nat.div_add_mod' n 256

theorem takeBytes_append (n : Nat) (x rest : List Nat) (hx : x.length = n) :
    takeBytes n (x ++ rest) = Outcome.ok (x, rest) := by
  subst hx
  simp [takeBytes]

theorem takeUint_beBytes (w n : Nat) (rest : List Nat) (hn : n < 256 ^ w) :
    takeUint w (beBytes w n ++ rest) = Outcome.ok (n, rest) := by
  simp only [takeUint, takeBytes_append w (beBytes w n) rest (beBytes_length w n),
    Outcome.ok_bind, Outcome.pure_eq, beValue_beBytes w n hn]

theorem takeUint_one (x : Nat) (rest : List Nat) :
    takeUint 1 (x :: rest) = Outcome.ok (x, rest) := by
  simp [takeUint, takeBytes, beValue]

/-- Decoding an encoded `CommitChain` gives it back and leaves the bytes after it. -/
theorem CommitChain_roundtrip (c : CommitChain) (hc : c.Valid) (rest : List Nat) :
    CommitChain.UnmarshalBinary (c.MarshalBinary ++ rest) = Outcome.ok (c, rest) := by
  obtain ⟨hv, hm, hch, hwd, heh, hlo, hhi, hpk, hsg⟩ := hc
  have hcred : (if (c.Credits % 256).toNat < 128 then (((c.Credits % 256).toNat : Nat) : Int)
      else (((c.Credits % 256).toNat : Nat) : Int) - 256) = c.Credits := by
    have hnn : (0 : Int) ≤ c.Credits % 256 := Int.emod_nonneg _ (by norm_num)
    rw [Int.toNat_of_nonneg hnn]
    by_cases hneg : c.Credits < 0
    · have : c.Credits % 256 = c.Credits + 256 := by omega
      have hlt : ¬ (c.Credits % 256).toNat < 128 := by omega
      rw [if_neg hlt]
      omega
    · have : c.Credits % 256 = c.Credits := by omega
      have hlt : (c.Credits % 256).toNat < 128 := by omega
      rw [if_pos hlt]
      omega
  have hver : beBytes 1 c.Version = [c.Version] := by
    simp [beBytes, Nat.mod_eq_of_lt hv]
  simp only [CommitChain.MarshalBinary, CommitChain.CommitMsg, hver, List.append_assoc,
    List.singleton_append, List.cons_append, List.nil_append, CommitChain.UnmarshalBinary, takeUint_one, Outcome.ok_bind,
    takeBytes_append 6 _ _ hm, takeBytes_append 32 _ _ hch, takeBytes_append 32 _ _ hwd,
    takeBytes_append 32 _ _ heh, takeBytes_append 32 _ _ hpk, takeBytes_append 64 _ _ hsg,
    Outcome.pure_eq, hcred]

/-- Decoding an encoded `IncreaseBalance` gives it back and leaves the bytes after it. -/
theorem IncreaseBalance_roundtrip (i : IncreaseBalance) (hi : i.Valid) (rest : List Nat) :
    IncreaseBalance.UnmarshalBinary (i.MarshalBinary ++ rest) = Outcome.ok (i, rest) := by
  obtain ⟨hpk, htx, hn⟩ := hi
  simp only [IncreaseBalance.MarshalBinary, List.append_assoc, IncreaseBalance.UnmarshalBinary,
    takeBytes_append 32 _ _ hpk, takeBytes_append 32 _ _ htx, takeUint_beBytes 8 _ _ hn,
    Outcome.ok_bind, Outcome.pure_eq]

/-- Decoding an encoded body entry gives it back and leaves the bytes after it. -/
theorem ECBlockEntry_roundtrip (w : ECWire) (hw : w.Valid) (x : ECBlockEntry) (hx : x.Valid)
    (rest : List Nat) :
    ECBlockEntry.UnmarshalBinary w (x.MarshalBinary w ++ rest) = Outcome.ok (x, rest) := by
  obtain ⟨_, _, hne⟩ := hw
  cases x with
  | commitChain c =>
    simp only [ECBlockEntry.MarshalBinary, List.singleton_append, List.cons_append,
      List.nil_append, ECBlockEntry.UnmarshalBinary, takeUint_one, Outcome.ok_bind, if_true,
      CommitChain_roundtrip c hx rest, Outcome.pure_eq]
  | increaseBalance i =>
    simp only [ECBlockEntry.MarshalBinary, List.singleton_append, List.cons_append,
      List.nil_append, ECBlockEntry.UnmarshalBinary, takeUint_one, Outcome.ok_bind, if_true,
      if_neg (Ne.symm hne), IncreaseBalance_roundtrip i hx rest, Outcome.pure_eq]

/-- Decoding an encoded body gives the entries back in order. -/
theorem unmarshalBody_roundtrip (w : ECWire) (hw : w.Valid) :
    ∀ (entries : List ECBlockEntry) (rest : List Nat), (∀ x ∈ entries, x.Valid) →
      ECBlock.unmarshalBody w entries.length
          ((entries.map (ECBlockEntry.MarshalBinary w)).flatten ++ rest)
        = Outcome.ok (entries, rest) := by
  intro entries
  induction entries with
  | nil => intro rest _; simp [ECBlock.unmarshalBody]
  | cons x xs ih =>
    intro rest hv
    have hx := hv x (List.mem_cons_self _ _)
    have hxs := ih rest (fun y hy => hv y (List.mem_cons_of_mem _ hy))
    simp only [List.map_cons, List.flatten_cons, List.append_assoc, List.length_cons,
      ECBlock.unmarshalBody, ECBlockEntry_roundtrip w hw x hx, Outcome.ok_bind, hxs,
      Outcome.pure_eq]

/-- Decoding an encoded header gives it back and leaves the bytes after it. -/
theorem ECBlockHeader_roundtrip (w : ECWire) (h : ECBlockHeader) (rest : List Nat)
    (h1 : h.ECChainID.length = 32) (h2 : h.BodyHash.length = 32)
    (h3 : h.PrevHeaderHash.length = 32) (h4 : h.PrevLedgerKeyMR.length = 32)
    (h5 : h.DBHeight < 256 ^ w.dbHeightWidth)
    (h6 : h.HeaderExpansionArea.length < 256 ^ w.areaLenWidth)
    (h7 : h.ObjectCount < 256 ^ w.objectCountWidth) :
    ECBlockHeader.UnmarshalBinary w (h.MarshalBinary w ++ rest) = Outcome.ok (h, rest) := by
  simp only [ECBlockHeader.MarshalBinary, List.append_assoc, ECBlockHeader.UnmarshalBinary,
    takeBytes_append 32 _ _ h1, takeBytes_append 32 _ _ h2, takeBytes_append 32 _ _ h3,
    takeBytes_append 32 _ _ h4, takeUint_beBytes _ _ _ h5, takeUint_beBytes _ _ _ h6,
    takeBytes_append _ h.HeaderExpansionArea _ rfl, takeUint_beBytes _ _ _ h7,
    Outcome.ok_bind, Outcome.pure_eq]

/-- A block built by `AddEntry` holds the entries in order and counts them. -/
theorem buildECBlock_eq (h : ECBlockHeader) (entries : List ECBlockEntry) :
    buildECBlock h entries
      = { Header := { h with ObjectCount := h.ObjectCount + entries.length },
          Body := entries } := by
  have key : ∀ (es : List ECBlockEntry) (e : ECBlock),
      es.foldl ECBlock.AddEntry e
        = { Header := { e.Header with ObjectCount := e.Header.ObjectCount + es.length },
            Body := e.Body ++ es } := by
    intro es
    induction es with
    | nil => intro e; simp
    | cons x xs ih =>
      intro e
      rw [List.foldl_cons, ih]
      simp only [ECBlock.AddEntry, List.length_cons, List.append_assoc, List.singleton_append,
        Nat.add_assoc, Nat.add_comm 1]
  rw [buildECBlock, key]
  simp [NewECBlock]

/-- C7: for an entry-credit block built from `NewECBlock` by setting the header fields
and adding `CommitChain` and `IncreaseBalance` entries with `AddEntry`, the bytes `p`
of `MarshalBinary` decode into a fresh block without error, the decoded block marshals
to bytes identical to `p`, and it equals the block that was encoded. -/
theorem ECBlock_marshal_roundtrip (w : ECWire) (hw : w.Valid) (h : ECBlockHeader)
    (entries : List ECBlockEntry) (hh : h.Valid w) (he : ∀ x ∈ entries, x.Valid)
    (hcount : entries.length < 256 ^ w.objectCountWidth) :
    ∃ decoded,
      NewECBlock.UnmarshalBinary w ((buildECBlock h entries).MarshalBinary w)
        = Outcome.ok decoded ∧
      decoded.MarshalBinary w = (buildECBlock h entries).MarshalBinary w ∧
      decoded = buildECBlock h entries := by
  obtain ⟨h1, h2, h3, h4, h5, h6, h7⟩ := hh
  refine ⟨buildECBlock h entries, ?_, rfl, rfl⟩
  rw [buildECBlock_eq]
  have hhdr := ECBlockHeader_roundtrip w
    { h with ObjectCount := h.ObjectCount + entries.length }
    ((entries.map (ECBlockEntry.MarshalBinary w)).flatten) h1 h2 h3 h4 h5 h6
    (by simp only [h7, Nat.zero_add]; exact hcount)
  have hbody := unmarshalBody_roundtrip w hw entries [] he
  rw [List.append_nil] at hbody
  simp only [h7, Nat.zero_add] at hhdr
  simp only [ECBlock.UnmarshalBinary, ECBlock.MarshalBinary, h7, Nat.zero_add, hhdr,
    Outcome.ok_bind, hbody, Outcome.pure_eq]

/-- Witness of C7: the block of `TestECBlockMarshal`, one `CommitChain` with credits 11
and one `IncreaseBalance` of 12. -/
theorem ECBlock_marshal_roundtrip_witness :
    sampleWire.Valid ∧ testECHeader.Valid sampleWire ∧ (∀ x ∈ testECEntries, x.Valid) ∧
    ∃ decoded,
      NewECBlock.UnmarshalBinary sampleWire
          ((buildECBlock testECHeader testECEntries).MarshalBinary sampleWire)
        = Outcome.ok decoded ∧
      decoded.MarshalBinary sampleWire
        = (buildECBlock testECHeader testECEntries).MarshalBinary sampleWire ∧
      decoded = buildECBlock testECHeader testECEntries :=
  ⟨by decide, by decide, by decide,
    ECBlock_marshal_roundtrip sampleWire (by decide) testECHeader testECEntries (by decide)
      (by decide) (by norm_num [testECEntries, sampleWire])⟩

/-! ## Theorems: appending entries -/

/-- What `AddEBEntry` does in terms of the result of `CreateHash`. -/
theorem AddEBEntry_eq (env : Env) (b : EBlock) (e : Entry) :
    ((env.CreateHash e).2 = none →
      b.AddEBEntry env e
        = ({ b with EBEntries := b.EBEntries ++ [{ EntryHash := (env.CreateHash e).1 }] }, none)) ∧
    (∀ err, (env.CreateHash e).2 = some err → b.AddEBEntry env e = (b, some err)) := by
  rcases hc : env.CreateHash e with ⟨h, err⟩
  cases err with
  | none => simp [EBlock.AddEBEntry, hc, NewEBEntry]
  | some msg => simp [EBlock.AddEBEntry, hc]

/-- C11: when `CreateHash(e)` succeeds with hash `h`, `AddEBEntry(e)` returns a nil
error and the body becomes the old body followed by one entry referencing `h`, the
earlier entries keeping their value and position; when `CreateHash(e)` fails,
`AddEBEntry` returns that error and the body is unchanged. -/
theorem AddEBEntry_appends (env : Env) (b : EBlock) (e : Entry) :
    (∀ h, env.CreateHash e = (h, none) →
      (b.AddEBEntry env e).2 = none ∧
      (b.AddEBEntry env e).1.EBEntries = b.EBEntries ++ [{ EntryHash := h }] ∧
      (∀ i, i < b.EBEntries.length →
        (b.AddEBEntry env e).1.EBEntries[i]? = b.EBEntries[i]?)) ∧
    (∀ h err, env.CreateHash e = (h, some err) →
      (b.AddEBEntry env e).2 = some err ∧
      (b.AddEBEntry env e).1.EBEntries = b.EBEntries) := by
  refine ⟨?_, ?_⟩
  · intro h hc
    have heq := (AddEBEntry_eq env b e).1 (by rw [hc])
    rw [heq, hc]
    refine ⟨rfl, rfl, ?_⟩
    intro i hi
    exact List.getElem?_append_left hi
  · intro h err hc
    have heq := (AddEBEntry_eq env b e).2 err (by rw [hc])
    rw [heq]
    exact ⟨rfl, rfl⟩

/-- Witness of C11: the sample entry appended to the sample origin block. -/
theorem AddEBEntry_appends_witness :
    sampleEnv.CreateHash sampleEntry = (some (List.replicate 32 6), none) ∧
    (sampleOrigin.AddEBEntry sampleEnv sampleEntry).2 = none ∧
    (sampleOrigin.AddEBEntry sampleEnv sampleEntry).1.EBEntries
      = sampleOrigin.EBEntries ++ [{ EntryHash := some (List.replicate 32 6) }] :=
  ⟨by decide,
    ((AddEBEntry_appends sampleEnv sampleOrigin sampleEntry).1
      (some (List.replicate 32 6)) (by decide)).1,
    ((AddEBEntry_appends sampleEnv sampleOrigin sampleEntry).1
      (some (List.replicate 32 6)) (by decide)).2.1⟩

/-- Counterexample to C12: on a sealed block, `AddEBEntry` returns a nil error and the
body grows by one entry. -/
theorem AddEBEntry_sealed_succeeds :
    sampleSealed.IsSealed = true ∧
    (sampleSealed.AddEBEntry sampleEnv sampleEntry).2 = none ∧
    (sampleSealed.AddEBEntry sampleEnv sampleEntry).1.EBEntries
      = [{ EntryHash := some (List.replicate 32 6) }] ∧
    (sampleSealed.AddEBEntry sampleEnv sampleEntry).1.EBEntries ≠ sampleSealed.EBEntries := by
  decide

/-- C12, as amended: on a sealed block `AddEBEntry(e)` fails with an error exactly when
`CreateHash(e)` fails, and the body is then unchanged; when `CreateHash(e)` succeeds
the entry is appended although the block is sealed. The block stays sealed in both
cases: `AddEBEntry` neither reads nor writes `IsSealed`. -/
theorem AddEBEntry_sealed (env : Env) (b : EBlock) (e : Entry) (hsealed : b.IsSealed = true) :
    ((b.AddEBEntry env e).2 ≠ none ↔ (env.CreateHash e).2 ≠ none) ∧
    ((env.CreateHash e).2 ≠ none →
      (b.AddEBEntry env e).2 = (env.CreateHash e).2 ∧
      (b.AddEBEntry env e).1.EBEntries = b.EBEntries) ∧
    ((env.CreateHash e).2 = none →
      (b.AddEBEntry env e).1.EBEntries
        = b.EBEntries ++ [{ EntryHash := (env.CreateHash e).1 }]) ∧
    (b.AddEBEntry env e).1.IsSealed = true := by
  cases herr : (env.CreateHash e).2 with
  | none =>
    have heq := (AddEBEntry_eq env b e).1 herr
    rw [heq]
    simp [hsealed]
  | some msg =>
    have heq := (AddEBEntry_eq env b e).2 msg herr
    rw [heq]
    simp [hsealed]

/-- Witness of C12 as amended: an entry that `CreateHash` refuses, on the sealed sample
block. -/
theorem AddEBEntry_sealed_witness :
    sampleSealed.IsSealed = true ∧ (sampleEnv.CreateHash []).2 ≠ none ∧
    (sampleSealed.AddEBEntry sampleEnv []).2 = (sampleEnv.CreateHash []).2 ∧
    (sampleSealed.AddEBEntry sampleEnv []).1.EBEntries = sampleSealed.EBEntries :=
  ⟨rfl, by decide,
    ((AddEBEntry_sealed sampleEnv sampleSealed [] rfl).2.1 (by decide)).1,
    ((AddEBEntry_sealed sampleEnv sampleSealed [] rfl).2.1 (by decide)).2⟩

/-- C13: neither append operation touches `EntryCount`, while each successful one
makes the body one entry longer; a block on which `EntryCount == len(EBEntries)` holds,
as the one `CreateBlock` returns, no longer satisfies it after `AddEndOfMinuteMarker`,
nor after an `AddEBEntry` whose `CreateHash` succeeds. -/
theorem append_breaks_EntryCount (env : Env) (b : EBlock) (e : Entry) (eomType : Nat)
    (hinv : b.EntryCount = b.EBEntries.length) :
    (b.AddEndOfMinuteMarker eomType).1.EntryCount
      ≠ (b.AddEndOfMinuteMarker eomType).1.EBEntries.length ∧
    ((env.CreateHash e).2 = none →
      (b.AddEBEntry env e).1.EntryCount ≠ (b.AddEBEntry env e).1.EBEntries.length) := by
  refine ⟨?_, ?_⟩
  · simp [EBlock.AddEndOfMinuteMarker, hinv]
  · intro hc
    rw [(AddEBEntry_eq env b e).1 hc]
    simp [hinv]

/-- Witness of C13: the origin block `CreateBlock` returns for the sample chain has
`EntryCount` 0 and an empty body; after one end-of-minute marker `EntryCount` is still
0 and the body holds one entry. -/
theorem append_breaks_EntryCount_witness :
    (CreateBlock sampleEnv sampleChain none 4).ret = Outcome.ok sampleOrigin ∧
    sampleOrigin.EntryCount = sampleOrigin.EBEntries.length ∧
    (sampleOrigin.AddEndOfMinuteMarker 1).1.EntryCount = 0 ∧
    (sampleOrigin.AddEndOfMinuteMarker 1).1.EBEntries.length = 1 ∧
    (sampleOrigin.AddEndOfMinuteMarker 1).1.EntryCount
      ≠ (sampleOrigin.AddEndOfMinuteMarker 1).1.EBEntries.length :=
  ⟨rfl, rfl, rfl, rfl,
    (append_breaks_EntryCount sampleEnv sampleOrigin sampleEntry 1 rfl).1⟩

/-! ## Theorems: Merkle roots -/

/-- A returning `BuildMerkleRoot` found a header and leaves the receiver as it was,
except for `MerkleRoot`, which is the last element of the tree over the header hash
and `Header.BodyMR`. -/
theorem BuildMerkleRoot_ok_eq (env : Env) (block q : EBlock)
    (h : block.BuildMerkleRoot env = Outcome.ok q) :
    ∃ hdr, block.Header = some hdr ∧
      (env.BuildMerkleTreeStore
          [some (env.Sha (env.HeaderMarshalBinary block.Header).1), hdr.BodyMR]).getLast?
        = some q.MerkleRoot ∧
      q = { block with MerkleRoot := q.MerkleRoot } := by
  unfold EBlock.BuildMerkleRoot at h
  simp only at h
  cases hh : block.Header with
  | none => simp [hh] at h
  | some hdr =>
    simp only [hh] at h
    cases hl : (env.BuildMerkleTreeStore
        [some (env.Sha (env.HeaderMarshalBinary (some hdr)).1), hdr.BodyMR]).getLast? with
    | none => simp [hl] at h
    | some root =>
      simp only [hl, Outcome.ok.injEq] at h
      subst h
      exact ⟨hdr, rfl, by simp only [hh]; exact hl, by simp only [hh]⟩

/-- C14: `BuildMerkleRoot` builds the tree over the entry hashes of the body and then
drops it: when the call returns, `Header.BodyMR` is what it was before the call, so it
is the Merkle root of the body only if it already was. -/
theorem BuildMerkleRoot_keeps_BodyMR (env : Env) (block q : EBlock)
    (h : block.BuildMerkleRoot env = Outcome.ok q) :
    ∃ hdr, block.Header = some hdr ∧
      ∃ hdr2, q.Header = some hdr2 ∧ hdr2.BodyMR = hdr.BodyMR := by
  obtain ⟨hdr, hh, _, hq⟩ := BuildMerkleRoot_ok_eq env block q h
  refine ⟨hdr, hh, hdr, ?_, rfl⟩
  rw [hq]
  exact hh

/-- Witness of C14: on the sample block with one entry and no body Merkle root, the
tree over the body ends with a root, and `Header.BodyMR` is still nil after the call. -/
theorem BuildMerkleRoot_keeps_BodyMR_witness :
    sampleWithEntry.BuildMerkleRoot sampleEnv
      = Outcome.ok { sampleWithEntry with MerkleRoot := some (List.replicate 32 137) } ∧
    (sampleEnv.BuildMerkleTreeStore
        (sampleWithEntry.EBEntries.map (fun entry => entry.EntryHash))).getLast?
      = some (some (List.replicate 32 32)) ∧
    ({ sampleWithEntry with MerkleRoot := some (List.replicate 32 137) } : EBlock).Header.map
        (fun hdr => hdr.BodyMR) = some none ∧
    ∃ hdr, sampleWithEntry.Header = some hdr ∧
      ∃ hdr2, ({ sampleWithEntry with MerkleRoot := some (List.replicate 32 137) } : EBlock).Header
          = some hdr2 ∧ hdr2.BodyMR = hdr.BodyMR :=
  ⟨by decide, by decide, by decide,
    BuildMerkleRoot_keeps_BodyMR sampleEnv sampleWithEntry
      { sampleWithEntry with MerkleRoot := some (List.replicate 32 137) } (by decide)⟩

/-- C15: `BuildMerkleRoot` never returns an error; when it returns, `MerkleRoot` is the
last element of `BuildMerkleTreeStore` on the two hashes `Sha(Header.MarshalBinary())`
and `Header.BodyMR`, and the header and the body are unchanged; and it returns
whenever the block has a header and the tree store of the package is not empty. -/
theorem BuildMerkleRoot_key_root (env : Env) (block : EBlock) :
    (∀ msg, block.BuildMerkleRoot env ≠ Outcome.error msg) ∧
    (∀ q, block.BuildMerkleRoot env = Outcome.ok q →
      ∃ hdr, block.Header = some hdr ∧
        (env.BuildMerkleTreeStore
            [some (env.Sha (env.HeaderMarshalBinary block.Header).1),
              hdr.BodyMR]).getLast? = some q.MerkleRoot ∧
        q.Header = block.Header ∧ q.EBEntries = block.EBEntries) ∧
    ((∀ l, env.BuildMerkleTreeStore l ≠ []) → block.Header ≠ none →
      ∃ q, block.BuildMerkleRoot env = Outcome.ok q) := by
  refine ⟨BuildMerkleRoot_ne_error env block, ?_,
    fun hstore hhdr => BuildMerkleRoot_ok env hstore block hhdr⟩
  intro q h
  obtain ⟨hdr, hh, hroot, hq⟩ := BuildMerkleRoot_ok_eq env block q h
  refine ⟨hdr, hh, hroot, ?_, ?_⟩ <;> rw [hq]

/-- Witness of C15: the key Merkle root of the sample origin block. -/
theorem BuildMerkleRoot_key_root_witness :
    (∀ l, sampleEnv.BuildMerkleTreeStore l ≠ []) ∧
    samplePrev.BuildMerkleRoot sampleEnv
      = Outcome.ok { samplePrev with MerkleRoot := some (List.replicate 32 137) } ∧
    ∃ hdr, samplePrev.Header = some hdr ∧
      (sampleEnv.BuildMerkleTreeStore
          [some (sampleEnv.Sha (sampleEnv.HeaderMarshalBinary samplePrev.Header).1),
            hdr.BodyMR]).getLast? = some (some (List.replicate 32 137)) ∧
      ({ samplePrev with MerkleRoot := some (List.replicate 32 137) } : EBlock).Header
        = samplePrev.Header ∧
      ({ samplePrev with MerkleRoot := some (List.replicate 32 137) } : EBlock).EBEntries
        = samplePrev.EBEntries :=
  ⟨sampleEnv_store_ne_nil, by decide,
    (BuildMerkleRoot_key_root sampleEnv samplePrev).2.1
      { samplePrev with MerkleRoot := some (List.replicate 32 137) } (by decide)⟩

/-! ## Theorems: the entry chain codec -/

/-- Counterexample to C19: a chain whose first entry is encoded on 3 bytes marshals
to 36 bytes, which decode without error into a chain with no first entry. -/
theorem EChain_short_entry_lost :
    sampleEChain.MarshalBinary sampleEnv
      = Outcome.ok ([32] ++ List.replicate 32 170 ++ [1, 2, 3]) ∧
    EChain.new.UnmarshalBinary sampleEnv ([32] ++ List.replicate 32 170 ++ [1, 2, 3])
      = Outcome.ok { ChainID := some (List.replicate 32 170), NextBlockHeight := 0,
                     FirstEntry := none } ∧
    sampleEChain.FirstEntry = some [1, 2, 3] := by
  decide

/-- C19, as amended: with a hash codec that writes 33 bytes and reads them back, and
an entry codec that reads back what it writes, `EChain.UnmarshalBinary` applied to
`EChain.MarshalBinary(c)` on a fresh chain returns no error and yields a chain with the
same `ChainID`; a chain without a first entry decodes to a chain without one; a first
entry whose encoding is longer than `HASH_LENGTH` = 32 bytes is decoded and equal to
the one of `c`; a first entry whose encoding is at most 32 bytes long is not decoded,
and the result has no first entry. -/
theorem EChain_roundtrip (env : Env) (c recv : EChain) (h : Hash)
    (hid : c.ChainID = some h)
    (hmar : (env.HashMarshalBinary (some h)).2 = none)
    (hlen : (env.HashMarshalBinary (some h)).1.length = 33)
    (hinv : (env.HashUnmarshalBinary (env.HashMarshalBinary (some h)).1).1 = h)
    (hentry : ∀ e, c.FirstEntry = some e →
      (env.EntryMarshalBinary e).2 = none ∧
      (env.EntryUnmarshalBinary (env.EntryMarshalBinary e).1).1 = e)
    (hfresh : recv.FirstEntry = none) :
    ∃ p decoded, c.MarshalBinary env = Outcome.ok p ∧
      recv.UnmarshalBinary env p = Outcome.ok decoded ∧
      decoded.ChainID = c.ChainID ∧
      (c.FirstEntry = none → decoded.FirstEntry = none) ∧
      (∀ e, c.FirstEntry = some e → 32 < (env.EntryMarshalBinary e).1.length →
        decoded.FirstEntry = some e) ∧
      (∀ e, c.FirstEntry = some e → (env.EntryMarshalBinary e).1.length ≤ 32 →
        decoded.FirstEntry = none) := by
  rcases hhm : env.HashMarshalBinary (some h) with ⟨hb, herr⟩
  rw [hhm] at hmar hlen hinv
  simp only at hmar hlen hinv
  subst hmar
  have htake : ∀ more : List Nat, (hb ++ more).take 33 = hb := by
    intro more
    rw [← hlen, List.take_left']
    rfl
  have hdrop : ∀ more : List Nat, (hb ++ more).drop 33 = more := by
    intro more
    rw [← hlen, List.drop_left']
    rfl
  cases hfe : c.FirstEntry with
  | none =>
    refine ⟨hb, { recv with ChainID := some h }, ?_, ?_, ?_, ?_, ?_, ?_⟩
    · simp [EChain.MarshalBinary, hid, hhm, hfe]
    · have h33 : (33 : Nat) ≤ hb.length := by omega
      have hnot : ¬ HASH_LENGTH < (hb.drop 33).length := by
        simp [List.length_drop, hlen]
      have htk : hb.take 33 = hb := List.take_of_length_le (by omega)
      simp only [EChain.UnmarshalBinary, sliceTo, sliceFrom, h33, if_true, Outcome.ok_bind,
        gt_iff_lt, hnot, if_false, Outcome.pure_eq, htk, hinv]
    · simp [hid]
    · intro _; exact hfresh
    · intro e he; cases he
    · intro e he; cases he
  | some e =>
    obtain ⟨hem, heinv⟩ := hentry e hfe
    rcases hee : env.EntryMarshalBinary e with ⟨eb, eerr⟩
    rw [hee] at hem heinv
    simp only at hem heinv
    subst hem
    have h33 : (33 : Nat) ≤ (hb ++ eb).length := by
      rw [List.length_append]
      omega
    by_cases hlong : 32 < eb.length
    · refine ⟨hb ++ eb, { recv with ChainID := some h, FirstEntry := some e }, ?_, ?_, ?_, ?_, ?_, ?_⟩
      · simp [EChain.MarshalBinary, hid, hhm, hfe, hee]
      · have hgt : HASH_LENGTH < eb.length := hlong
        simp only [EChain.UnmarshalBinary, sliceTo, sliceFrom, h33, if_true, Outcome.ok_bind,
          gt_iff_lt, hgt, Outcome.pure_eq, htake, hdrop, hinv, heinv]
      · simp [hid]
      · intro hn; cases hn
      · intro e2 he2 _
        cases he2
        rfl
      · intro e2 he2 hle
        cases he2
        rw [hee] at hle
        simp only at hle
        omega
    · refine ⟨hb ++ eb, { recv with ChainID := some h }, ?_, ?_, ?_, ?_, ?_, ?_⟩
      · simp [EChain.MarshalBinary, hid, hhm, hfe, hee]
      · have hgt : ¬ HASH_LENGTH < eb.length := hlong
        simp only [EChain.UnmarshalBinary, sliceTo, sliceFrom, h33, if_true, Outcome.ok_bind,
          gt_iff_lt, hdrop, hgt, if_false, Outcome.pure_eq, htake, hinv]
      · simp [hid]
      · intro hn; cases hn
      · intro e2 he2 hgt
        cases he2
        rw [hee] at hgt
        simp only at hgt
        omega
      · intro _ _ _
        exact hfresh

/-- Witness of C19 as amended: a chain whose first entry is encoded on 40 bytes comes
back whole. -/
theorem EChain_roundtrip_witness :
    sampleEChainLong.ChainID = some (List.replicate 32 170) ∧
    (sampleEnv.HashMarshalBinary (some (List.replicate 32 170))).1.length = 33 ∧
    EChain.new.UnmarshalBinary sampleEnv
        ([32] ++ List.replicate 32 170 ++ List.replicate 40 5)
      = Outcome.ok sampleEChainLong ∧
    ∃ p decoded, sampleEChainLong.MarshalBinary sampleEnv = Outcome.ok p ∧
      EChain.new.UnmarshalBinary sampleEnv p = Outcome.ok decoded ∧
      decoded.ChainID = sampleEChainLong.ChainID ∧
      (sampleEChainLong.FirstEntry = none → decoded.FirstEntry = none) ∧
      (∀ e, sampleEChainLong.FirstEntry = some e →
        32 < (sampleEnv.EntryMarshalBinary e).1.length → decoded.FirstEntry = some e) ∧
      (∀ e, sampleEChainLong.FirstEntry = some e →
        (sampleEnv.EntryMarshalBinary e).1.length ≤ 32 → decoded.FirstEntry = none) :=
  ⟨rfl, by decide, by decide,
    EChain_roundtrip sampleEnv sampleEChainLong EChain.new (List.replicate 32 170) rfl
      (by decide) (by decide) (by decide) (fun e _ => ⟨rfl, rfl⟩) rfl⟩

/-! ## Theorems: the keys of the entry store -/

theorem Store.write_append_two (store : Store) (batch : Batch) (a b : List Nat × List Nat) :
    store.write (batch ++ [a] ++ [b]) = b :: a :: store.write batch := by
  simp [Store.write, List.foldl_append]

theorem entryKey_length (ldb : LdbEnv) (h : Hash) (hh : h.length = 32) :
    (entryKey ldb h).length = 33 := by
  simp [entryKey, hh]

theorem entryQueueKey_length (ldb : LdbEnv) (c : List Nat) (t : Int) (h : Hash)
    (hc : c.length = 32) (hh : h.length = 32) : (entryQueueKey ldb c t h).length = 73 := by
  simp [entryQueueKey, hc, hh]

/-- C16: for a 32-byte entry hash `h` and a 32-byte chain id `c`, a successful
`InsertEntryAndQueue` stores the entry bytes under the 33-byte key `[TBL_ENTRY] ++ h`
and the queue status under the 73-byte key `[TBL_ENTRY_QUEUE] ++ c ++` (timestamp on 8
bytes, big-endian) `++ h`; `FetchEntryByHash(h)` reads the key `[TBL_ENTRY] ++ h`, and
what it reads after the insert is the entry bytes the insert wrote. -/
theorem InsertEntryAndQueue_keys (ldb : LdbEnv) (db : LevelDb) (h : Hash)
    (binaryEntry : List Nat) (entry : Entry) (c : List Nat)
    (hh : h.length = 32) (hc : c.length = 32) :
    (db.InsertEntryAndQueue ldb h binaryEntry entry c none).2 = none ∧
    entryKey ldb h = [ldb.TBL_ENTRY % 256] ++ h ∧ (entryKey ldb h).length = 33 ∧
    (db.InsertEntryAndQueue ldb h binaryEntry entry c none).1.lDb.get (entryKey ldb h)
      = some binaryEntry ∧
    entryQueueKey ldb c (ldb.TimeStamp entry) h
      = [ldb.TBL_ENTRY_QUEUE % 256] ++ c
        ++ beBytes 8 (ldb.TimeStamp entry % 2 ^ 64).toNat ++ h ∧
    (entryQueueKey ldb c (ldb.TimeStamp entry) h).length = 73 ∧
    (db.InsertEntryAndQueue ldb h binaryEntry entry c none).1.lDb.get
        (entryQueueKey ldb c (ldb.TimeStamp entry) h)
      = some [ldb.STATUS_IN_QUEUE % 256] ∧
    ((db.InsertEntryAndQueue ldb h binaryEntry entry c none).1.FetchEntryByHash ldb h).key
      = [ldb.TBL_ENTRY % 256] ++ h ∧
    ((db.InsertEntryAndQueue ldb h binaryEntry entry c none).1.FetchEntryByHash ldb h).data
      = some binaryEntry := by
  have hk1 := entryKey_length ldb h hh
  have hk2 := entryQueueKey_length ldb c (ldb.TimeStamp entry) h hc hh
  have hne : entryKey ldb h ≠ entryQueueKey ldb c (ldb.TimeStamp entry) h := by
    intro heq
    have := congrArg List.length heq
    omega
  have hstore : (db.InsertEntryAndQueue ldb h binaryEntry entry c none).1.lDb
      = (entryQueueKey ldb c (ldb.TimeStamp entry) h, [ldb.STATUS_IN_QUEUE % 256])
        :: (entryKey ldb h, binaryEntry) :: db.lDb.write (db.lbatch.getD []) := by
    simp only [LevelDb.InsertEntryAndQueue, Store.write_append_two]
  have hget1 : (db.InsertEntryAndQueue ldb h binaryEntry entry c none).1.lDb.get (entryKey ldb h)
      = some binaryEntry := by
    rw [hstore, Store.get, List.lookup_cons, beq_false_of_ne hne]
    simp only
    rw [List.lookup_cons, beq_self_eq_true]
  have hget2 : (db.InsertEntryAndQueue ldb h binaryEntry entry c none).1.lDb.get
      (entryQueueKey ldb c (ldb.TimeStamp entry) h) = some [ldb.STATUS_IN_QUEUE % 256] := by
    rw [hstore, Store.get, List.lookup_cons, beq_self_eq_true]
  exact ⟨rfl, rfl, hk1, hget1, rfl, hk2, hget2, rfl, hget1⟩

/-- Witness of C16: an insert into the empty sample database followed by a fetch. -/
theorem InsertEntryAndQueue_keys_witness :
    (List.replicate 32 6).length = 32 ∧ (List.replicate 32 170).length = 32 ∧
    (sampleDb.InsertEntryAndQueue sampleLdb (List.replicate 32 6) [1, 2, 3] sampleEntry
        (List.replicate 32 170) none).1.lDb.get ([1] ++ List.replicate 32 6)
      = some [1, 2, 3] ∧
    ((sampleDb.InsertEntryAndQueue sampleLdb (List.replicate 32 6) [1, 2, 3] sampleEntry
        (List.replicate 32 170) none).1.FetchEntryByHash sampleLdb (List.replicate 32 6)).data
      = some [1, 2, 3] :=
  ⟨by simp, by simp,
    (InsertEntryAndQueue_keys sampleLdb sampleDb (List.replicate 32 6) [1, 2, 3] sampleEntry
      (List.replicate 32 170) (by simp) (by simp)).2.2.2.1,
    (InsertEntryAndQueue_keys sampleLdb sampleDb (List.replicate 32 6) [1, 2, 3] sampleEntry
      (List.replicate 32 170) (by simp) (by simp)).2.2.2.2.2.2.2.2⟩

/-- A common prefix does not change the order of two byte strings. -/
theorem bytesLess_append_left (p a b : List Nat) :
    bytesLess (p ++ a) (p ++ b) = bytesLess a b := by
  induction p with
  | nil => rfl
  | cons x xs ih => simp [bytesLess, ih]

/-- Two byte strings of the same length that are ordered stay ordered whatever
follows them. -/
theorem bytesLess_append_of_lt :
    ∀ (a b x y : List Nat), a.length = b.length → bytesLess a b = true →
      bytesLess (a ++ x) (b ++ y) = true := by
  intro a
  induction a with
  | nil =>
    intro b x y hlen hlt
    cases b with
    | nil => simp [bytesLess] at hlt
    | cons _ _ => simp at hlen
  | cons u us ih =>
    intro b x y hlen hlt
    cases b with
    | nil => simp at hlen
    | cons v vs =>
      simp only [bytesLess, Bool.or_eq_true, Bool.and_eq_true, decide_eq_true_eq] at hlt
      simp only [List.cons_append, bytesLess, Bool.or_eq_true, Bool.and_eq_true,
        decide_eq_true_eq]
      rcases hlt with hlt | ⟨heq, hrest⟩
      · exact Or.inl hlt
      · exact Or.inr ⟨heq, ih vs x y (by simpa using hlen) hrest⟩

/-- Big-endian encodings on a fixed width are ordered like the integers they encode. -/
theorem beBytes_ordered (w : Nat) :
    ∀ a b, a < b → b < 256 ^ w → bytesLess (beBytes w a) (beBytes w b) = true := by
  induction w with
  | zero =>
    intro a b hab hb
    simp at hb
    omega
  | succ w ih =>
    intro a b hab hb
    have hdiv : b / 256 < 256 ^ w := by
      rw [Nat.div_lt_iff_lt_mul (by norm_num)]
      rw [pow_succ] at hb
      exact hb
    simp only [beBytes]
    rcases Nat.lt_or_ge (a / 256) (b / 256) with hlt | hge
    · exact bytesLess_append_of_lt _ _ _ _ (by simp) (ih _ _ hlt hdiv)
    · have heq : a / 256 = b / 256 := by omega
      have hmod : a % 256 < b % 256 := by omega
      rw [heq, bytesLess_append_left]
      simp [bytesLess, hmod]

/-- C20: for one chain id `c` and two timestamps `0 ≤ t1 < t2` (within `int64`), the
queue key `InsertEntryAndQueue` builds for `t1` is strictly smaller in lexicographic
byte order than the one it builds for `t2`, whatever the two entry hashes. -/
theorem entryQueueKey_ordered (ldb : LdbEnv) (c : List Nat) (t1 t2 : Int) (h1 h2 : Hash)
    (h0 : 0 ≤ t1) (hlt : t1 < t2) (hmax : t2 < 2 ^ 63) :
    bytesLess (entryQueueKey ldb c t1 h1) (entryQueueKey ldb c t2 h2) = true := by
  have e1 : (t1 % 2 ^ 64).toNat = t1.toNat := by
    rw [Int.emod_eq_of_lt h0 (by omega)]
  have e2 : (t2 % 2 ^ 64).toNat = t2.toNat := by
    rw [Int.emod_eq_of_lt (by omega) (by omega)]
  have hnat : t1.toNat < t2.toNat := by omega
  have hbound : t2.toNat < 256 ^ 8 := by
    have : (256 : Nat) ^ 8 = 2 ^ 64 := by norm_num
    omega
  simp only [entryQueueKey, e1, e2, List.append_assoc]
  rw [bytesLess_append_left, bytesLess_append_left]
  exact bytesLess_append_of_lt _ _ _ _ (by simp) (beBytes_ordered 8 _ _ hnat hbound)

/-- Witness of C20: timestamps 255 and 256 under the sample constants. -/
theorem entryQueueKey_ordered_witness :
    (0 : Int) ≤ 255 ∧ (255 : Int) < 256 ∧ (256 : Int) < 2 ^ 63 ∧
    bytesLess
      (entryQueueKey sampleLdb (List.replicate 32 170) 255 (List.replicate 32 9))
      (entryQueueKey sampleLdb (List.replicate 32 170) 256 (List.replicate 32 1)) = true :=
  ⟨by decide, by decide, by norm_num,
    entryQueueKey_ordered sampleLdb (List.replicate 32 170) 255 256 (List.replicate 32 9)
      (List.replicate 32 1) (by decide) (by decide) (by norm_num)⟩

/-! ## Theorems: the block timer -/

/-- The loop of the timer ends within `10 - minutesPassed` iterations; it sends one
message per remaining minute and sleeps once before each. -/
theorem BlockTimer_loop_events (eom1 : Nat) (bt : BlockTimer) (clock : Nat → Time) :
    ∀ (fuel i minutesPassed : Nat), minutesPassed ≤ 10 → 10 - minutesPassed ≤ fuel →
      ∃ events, BlockTimer.loop eom1 bt clock fuel i minutesPassed = some events ∧
        sentMessages events
          = (List.range' minutesPassed (10 - minutesPassed)).map
              (fun j => { EOM_Type := (eom1 + j % 256) % 256,
                          NextDBlockHeight := bt.nextDBlockHeight }) ∧
        sleptDurations events
          = (List.range' i (10 - minutesPassed)).map (fun k => sleepDuration (clock k)) := by
  intro fuel
  induction fuel with
  | zero =>
    intro i mp hle hfuel
    have hmp : mp = 10 := by omega
    subst hmp
    exact ⟨[], by simp [BlockTimer.loop], by simp [sentMessages], by simp [sleptDurations]⟩
  | succ fuel ih =>
    intro i mp hle hfuel
    by_cases hlt : mp < 10
    · obtain ⟨rest, hrest, hmsgs, hsleeps⟩ := ih (i + 1) (mp + 1) (by omega) (by omega)
      have hcount : 10 - mp = (10 - (mp + 1)) + 1 := by omega
      refine ⟨TimerEvent.sleep (sleepDuration (clock i))
        :: TimerEvent.send { EOM_Type := (eom1 + mp % 256) % 256,
                             NextDBlockHeight := bt.nextDBlockHeight } :: rest, ?_, ?_, ?_⟩
      · simp only [BlockTimer.loop, hlt, if_true, hrest, Option.map_some']
      · simp only [sentMessages, hmsgs]
        rw [hcount, List.range'_succ]
        rfl
      · simp only [sleptDurations, hsleeps]
        rw [hcount, List.range'_succ]
        rfl
    · have hmp : mp = 10 := by omega
      subst hmp
      exact ⟨[], by simp [BlockTimer.loop], by simp [sentMessages], by simp [sleptDurations]⟩

/-- C17: for a start time whose rounded minute is `m`, `StartBlockTimer` ends after
sending exactly `10 - m mod 10` end-of-minute messages; message `k` has type
`END_MINUTE_1 + m mod 10 + k`, so the types increase strictly, lie between
`END_MINUTE_1` and `END_MINUTE_1 + 9`, and the last one is `END_MINUTE_1 + 9`; every
message carries the timer's `nextDBlockHeight`. `END_MINUTE_1 + 9` is taken to fit a
byte. -/
theorem StartBlockTimer_messages (eom1 : Nat) (bt : BlockTimer) (now : Time)
    (clock : Nat → Time) (fuel : Nat) (hbyte : eom1 + 9 < 256) (hfuel : 10 ≤ fuel) :
    ∃ events, bt.StartBlockTimer eom1 now clock fuel = some events ∧
      sentMessages events
        = (List.range (10 - Time.Minute (Time.Round now) % 10)).map
            (fun k => { EOM_Type := eom1 + Time.Minute (Time.Round now) % 10 + k,
                        NextDBlockHeight := bt.nextDBlockHeight }) ∧
      (sentMessages events).length = 10 - Time.Minute (Time.Round now) % 10 ∧
      ((sentMessages events).map (fun msg => msg.EOM_Type)).Pairwise (fun a b => a < b) ∧
      (∀ msg ∈ sentMessages events,
        eom1 ≤ msg.EOM_Type ∧ msg.EOM_Type ≤ eom1 + 9 ∧
        msg.NextDBlockHeight = bt.nextDBlockHeight) ∧
      (sentMessages events).getLast?
        = some { EOM_Type := eom1 + 9, NextDBlockHeight := bt.nextDBlockHeight } := by
  have hmp : Time.Minute (Time.Round now) - (Time.Minute (Time.Round now) / 10) * 10
      = Time.Minute (Time.Round now) % 10 := by omega
  have hm10 : Time.Minute (Time.Round now) % 10 < 10 := Nat.mod_lt _ (by norm_num)
  generalize Time.Minute (Time.Round now) % 10 = r at hmp hm10
  obtain ⟨events, hev, hmsgs, _⟩ :=
    BlockTimer_loop_events eom1 bt clock fuel 0 r (by omega) (by omega)
  have hlist : sentMessages events
      = (List.range (10 - r)).map
          (fun k => ({ EOM_Type := eom1 + r + k,
                       NextDBlockHeight := bt.nextDBlockHeight } : MsgInt_EOM)) := by
    rw [hmsgs, List.range'_eq_map_range, List.map_map]
    apply List.map_congr_left
    intro k hk
    have hk10 : k < 10 - r := List.mem_range.mp hk
    have h1 : (r + k) % 256 = r + k := Nat.mod_eq_of_lt (by omega)
    have h2 : (eom1 + (r + k)) % 256 = eom1 + (r + k) := Nat.mod_eq_of_lt (by omega)
    simp only [Function.comp, h1, h2, Nat.add_assoc]
  refine ⟨events, ?_, hlist, ?_, ?_, ?_, ?_⟩
  · simp only [BlockTimer.StartBlockTimer, hmp, hev]
  · rw [hlist]
    simp
  · rw [hlist, List.map_map]
    refine List.Pairwise.map _ ?_ (List.pairwise_lt_range _)
    intro a b hab
    simp only [Function.comp]
    omega
  · intro msg hmem
    rw [hlist] at hmem
    obtain ⟨k, hk, rfl⟩ := List.mem_map.mp hmem
    have hk10 : k < 10 - r := List.mem_range.mp hk
    exact ⟨by simp only; omega, by simp only; omega, rfl⟩
  · rw [hlist]
    obtain ⟨n, hn⟩ : ∃ n, 10 - r = n + 1 := ⟨9 - r, by omega⟩
    rw [hn, List.range_succ, List.map_append, List.map_singleton, List.getLast?_append,
      List.getLast?_singleton]
    have : eom1 + r + n = eom1 + 9 := by omega
    simp [this]

/-- Witness of C17: started 7 minutes past the hour with `END_MINUTE_1` = 1, the timer
sends the three messages of types 8, 9 and 10. -/
theorem StartBlockTimer_messages_witness :
    (1 : Nat) + 9 < 256 ∧ (10 : Nat) ≤ 10 ∧
    Time.Minute (Time.Round (7 * nanosPerMinute)) % 10 = 7 ∧
    (sampleTimer.StartBlockTimer 1 (7 * nanosPerMinute) sampleClock 10).map sentMessages
      = some [⟨8, 7⟩, ⟨9, 7⟩, ⟨10, 7⟩] ∧
    ∃ events, sampleTimer.StartBlockTimer 1 (7 * nanosPerMinute) sampleClock 10 = some events ∧
      (sentMessages events).length = 10 - Time.Minute (Time.Round (7 * nanosPerMinute)) % 10 :=
  ⟨by decide, by decide, by decide, by decide,
    (StartBlockTimer_messages 1 sampleTimer (7 * nanosPerMinute) sampleClock 10
      (by decide) (by decide)).imp (fun _ h => ⟨h.1, h.2.2.1⟩)⟩

/-- C18: when the current time `t0` is not before its minute-rounded value, the timer
sleeps `60 - s` seconds, `s` being the seconds of `t0`, which ends the current minute;
when `t0` is before its rounded value, which is when `s` is at least 30, it sleeps
`60 + s` seconds, so that `s` plus the seconds slept is `60 + 2 s` and not 60. -/
theorem sleepDuration_seconds (t0 : Time) :
    (¬ t0 < Time.Round t0 →
      Time.Second t0 + sleepDuration t0 / nanosPerSecond = 60) ∧
    (t0 < Time.Round t0 →
      30 ≤ Time.Second t0 ∧
      sleepDuration t0 / nanosPerSecond = 60 + Time.Second t0 ∧
      Time.Second t0 + sleepDuration t0 / nanosPerSecond ≠ 60) := by
  have hs : Time.Second t0 < 60 := Nat.mod_lt _ (by norm_num)
  refine ⟨?_, ?_⟩
  · intro hnot
    simp only [sleepDuration, hnot, if_false, nanosPerSecond]
    rw [Nat.mul_div_cancel _ (by norm_num)]
    omega
  · intro hbefore
    have h30 : 30 ≤ Time.Second t0 := by
      obtain ⟨n, hn⟩ : ∃ n : Nat, n = t0 := ⟨t0, rfl⟩
      have hb : n < (if n % 60000000000 + n % 60000000000 < 60000000000
          then n - n % 60000000000 else n + (60000000000 - n % 60000000000)) := by
        rw [hn]
        exact hbefore
      have hsec : Time.Second t0 = n / 1000000000 % 60 := by rw [hn]; rfl
      rw [hsec]
      split at hb <;> omega
    have hd : sleepDuration t0 / nanosPerSecond = 60 + Time.Second t0 := by
      simp only [sleepDuration, hbefore, if_true, nanosPerSecond]
      rw [Nat.mul_div_cancel _ (by norm_num)]
    exact ⟨h30, hd, by omega⟩

/-- Witness of C18: at 45 seconds past the minute the timer sleeps 105 seconds. -/
theorem sleepDuration_seconds_witness :
    (45 * nanosPerSecond : Nat) < Time.Round (45 * nanosPerSecond) ∧
    Time.Second (45 * nanosPerSecond) = 45 ∧
    sleepDuration (45 * nanosPerSecond) / nanosPerSecond = 105 ∧
    Time.Second (45 * nanosPerSecond) + sleepDuration (45 * nanosPerSecond) / nanosPerSecond
      ≠ 60 :=
  ⟨by decide, by decide, by decide,
    ((sleepDuration_seconds (45 * nanosPerSecond)).2 (by decide)).2.2⟩

end FactomCode
